import Mathlib

/-!
# Verification of the gp2 collection pipeline

Shallow embedding of the two collection drivers of the gp2 repository
(`src/01_api_collection.py` and `src/02_scraping.py`), of their fetchers,
and of the year-extraction helper of `src/04_clean_data.py`, together with
proofs settling the frozen claims C1 to C10.

Conventions of the embedding:
* Python dict/JSON fields that may be absent or `None` become `Option` values;
  a pandas `NaN` cell is likewise modelled as `none`.
* Python truthiness of a string value (`if book_data.get("id")`) is modelled by
  `truthyStr`, which rejects both absence and the empty string.
* Network traffic is a pure function from request data to responses; a raised
  `requests.RequestException` is one of the error response constructors, so the
  `try/except` structure of the code becomes total pattern matching.
* `while` loops run on explicit fuel equal to the bound the source itself
  enforces (the API loop makes at most `max_requests = 500` requests per query;
  the catalog loop starts at offset 1, steps by 25 and stops before 10000, so
  it runs at most 400 iterations).
* the in-memory state of a run (accumulation buffer, seen-key set) is a
  structure which additionally records the observable events of the run:
  issued page fetches, the number of admitted records, and the snapshots
  handed to `to_csv` (wholesale persists).
-/

namespace GP2

/-- Python truthiness for an optional string: `some s` with `s ≠ ""` is truthy,
`none` (absent / `None`) and `some ""` are falsy. -/
def truthyStr : Option String → Option String
  | none => none
  | some s => if s = "" then none else some s

@[simp] theorem truthyStr_none : truthyStr none = none := rfl

theorem truthyStr_some {s k : String} (h : truthyStr (some s) = some k) : s = k := by
  by_cases hs : s = "" <;> simp [truthyStr, hs] at h
  exact h

/-! ## API source: raw JSON shapes (`01_api_collection.py`) -/

/-- `volumeInfo.imageLinks` of one Google Books volume. -/
structure ImageLinks where
  thumbnail : Option String
deriving DecidableEq

/-- The `volumeInfo` object of one item of the `items` array. -/
structure VolumeInfo where
  title : Option String := none
  authors : List String := []
  publisher : Option String := none
  publishedDate : Option String := none
  description : Option String := none
  categories : List String := []
  language : Option String := none
  pageCount : Option Int := none
  averageRating : Option Rat := none
  ratingsCount : Option Int := none
  imageLinks : Option ImageLinks := none
deriving DecidableEq

/-- One element of the `items` array of the API response body. -/
structure ApiItem where
  id : Option String := none
  volumeInfo : VolumeInfo := {}
deriving DecidableEq

/-- A parsed JSON body of a 200 response of the volumes endpoint: the driver
only inspects the optional `items` array. -/
structure ApiJson where
  items : Option (List ApiItem) := none
deriving DecidableEq

/-- The flat record built by `parse_book_data`. -/
structure ARecord where
  id : Option String := none
  title : Option String := none
  author : Option String := none
  publisher : Option String := none
  published_date : Option String := none
  description : Option String := none
  categories : Option String := none
  language : Option String := none
  page_count : Option Int := none
  average_rating : Option Rat := none
  ratings_count : Option Int := none
  thumbnail : Option String := none
  source : String := "google_books_api"
deriving DecidableEq

/-- Embedding of `parse_book_data` (`01_api_collection.py`, lines 61-86):
joins the author and category lists with `", "` (empty list becomes `None`),
copies the scalar fields, and takes the thumbnail only when `imageLinks` is
present (a truthy dict). -/
def parse_book_data (item : ApiItem) : ARecord :=
  let vi := item.volumeInfo
  { id := item.id
    title := vi.title
    author := if vi.authors = [] then none else some (String.intercalate ", " vi.authors)
    publisher := vi.publisher
    published_date := vi.publishedDate
    description := vi.description
    categories := if vi.categories = [] then none else some (String.intercalate ", " vi.categories)
    language := vi.language
    page_count := vi.pageCount
    average_rating := vi.averageRating
    ratings_count := vi.ratingsCount
    thumbnail := match vi.imageLinks with
      | some links => links.thumbnail
      | none => none
    source := "google_books_api" }

/-! ## API fetcher `get_books_by_query` (`01_api_collection.py`, lines 14-59)

A network call is indexed by its position in the sequence of calls the fetcher
makes, and carries whether the `key` parameter was included.  The response is
either a 200 with a parsed body, a 200 whose body fails to parse as JSON
(`response.json()` raises a `JSONDecodeError`, a `RequestException` carrying no
response object), an HTTP error status (`raise_for_status`), or a transport
error with no response attached (timeout, connection failure). -/

inductive ApiResponse where
  | ok (body : ApiJson)
  | okMalformed
  | httpErr (status : Nat)
  | transportErr
deriving DecidableEq

/-- Result of one `get_books_by_query` call: the returned value (`None` on
failure), the sequence of back-off sleeps performed (seconds), and the network
calls made, each tagged with whether the API key was passed. -/
structure FetchOut where
  result : Option ApiJson
  waits : List Nat
  calls : List (Nat × Bool)
deriving DecidableEq

/-- Recursion core of `get_books_by_query`.  `fuel` bounds the recursion depth;
the wrapper passes `maxRetries + 1`, which the 429 branch (the only recursive
one, guarded by `retryCount < maxRetries`) can never exhaust.
Branches, in source order:
* 200: return the parsed body (malformed body raises and, carrying no
  response object, falls through to the generic handler: `None`);
* 429 with budget left: sleep `(2 ** retry_count) * 60` and recurse with
  `retry_count + 1`; budget exhausted: `None`;
* 403 while a key was supplied: one extra keyless attempt, its 200 body on
  success and `None` otherwise;
* anything else (other statuses, transport errors): log and return `None`. -/
def getBooksAux (remote : Nat → Bool → ApiResponse) (hasKey : Bool)
    (maxRetries : Nat) : Nat → Nat → Nat → FetchOut
  | 0, _, _ => ⟨none, [], []⟩
  | fuel + 1, retryCount, idx =>
    match remote idx hasKey with
    | .ok body => ⟨some body, [], [(idx, hasKey)]⟩
    | .okMalformed => ⟨none, [], [(idx, hasKey)]⟩
    | .transportErr => ⟨none, [], [(idx, hasKey)]⟩
    | .httpErr status =>
      if status = 429 then
        if retryCount < maxRetries then
          let rest := getBooksAux remote hasKey maxRetries fuel (retryCount + 1) (idx + 1)
          ⟨rest.result, 2 ^ retryCount * 60 :: rest.waits, (idx, hasKey) :: rest.calls⟩
        else ⟨none, [], [(idx, hasKey)]⟩
      else if hasKey ∧ status = 403 then
        match remote (idx + 1) false with
        | .ok body => ⟨some body, [], [(idx, hasKey), (idx + 1, false)]⟩
        | _ => ⟨none, [], [(idx, hasKey), (idx + 1, false)]⟩
      else ⟨none, [], [(idx, hasKey)]⟩

/-- Embedding of `get_books_by_query`: starts with `retry_count = 0` and the
default retry budget `max_retries` (3 in the source default). -/
def get_books_by_query (remote : Nat → Bool → ApiResponse) (hasKey : Bool)
    (maxRetries : Nat) : FetchOut :=
  getBooksAux remote hasKey maxRetries (maxRetries + 1) 0 0

/-! ## API driver `collect_books_from_api` (`01_api_collection.py`, lines 88-158)

The driver is modelled at the granularity it observes the network: the result
of one `get_books_by_query(query, key, 40, start_index)` call is a
`Option ApiJson`, given by a function of the query and the start index (the
"remote source").  The state records the accumulation buffer `all_books`, the
seen-id set `seen_ids`, and the observable events of the run. -/

/-- Run state of the API driver: `buffer` is `all_books`, `seen` is `seen_ids`
(a list used as a set), `fetches` lists the page requests issued (query, start
index), `admits` counts records appended during the run, `saves` lists the
snapshots written by `to_csv`. -/
structure AState where
  buffer : List ARecord := []
  seen : List String := []
  fetches : List (String × Nat) := []
  admits : Nat := 0
  saves : List (List ARecord) := []
deriving DecidableEq

def emptyA : AState := {}

/-- A checkpoint/output file as the driver can find it at startup: absent,
present but unreadable (`pd.read_csv` raises), or a readable table with a
column list and rows.  A row cell that is empty/NaN is `none`. -/
inductive ACheckpoint where
  | missing
  | unreadable
  | table (cols : List String) (rows : List ARecord)

/-- Embedding of the checkpoint load of `collect_books_from_api`
(lines 92-101): a readable file whose columns include `id` seeds
`seen_ids` with the unique non-null ids and `all_books` with all rows;
a missing file is skipped silently; an unreadable file only logs a warning
(the boolean output); a file without an `id` column seeds nothing and warns
nothing.  No case aborts the run. -/
def loadA : ACheckpoint → AState × Bool
  | .missing => (emptyA, false)
  | .unreadable => (emptyA, true)
  | .table cols rows =>
    if "id" ∈ cols then
      ({ emptyA with buffer := rows, seen := (rows.filterMap ARecord.id).dedup }, false)
    else (emptyA, false)

/-- Embedding of the admission step of the driver's inner item loop
(lines 119-124): parse the item; if the parsed record's `id` is truthy and
unseen, mark it seen and append the record to the buffer. -/
def admitBook (s : AState) (item : ApiItem) : AState :=
  let bd := parse_book_data item
  match truthyStr bd.id with
  | some k =>
    if k ∈ s.seen then s
    else { s with seen := k :: s.seen, buffer := s.buffer ++ [bd], admits := s.admits + 1 }
  | none => s

/-- Embedding of the periodic persistence check (lines 136-142): after a page,
if an output file is configured and the buffer is non-empty with a length that
is an exact multiple of 100, write the whole buffer. -/
def save100A (hasOutput : Bool) (s : AState) : AState :=
  if hasOutput ∧ 0 < s.buffer.length ∧ s.buffer.length % 100 = 0
  then { s with saves := s.saves ++ [s.buffer] } else s

/-- Embedding of the per-query `while` loop (lines 107-142).  The guard is
`start_index < max_books_per_query and request_count < max_requests`; `fuel`
is exactly the remaining request budget (`max_requests - request_count`,
initially 500).  A successful page with a non-empty `items` array admits every
item, advances the cursor by the number of items on the page, and runs the
persistence check; any other outcome (fetch failure, missing `items`, zero
items) breaks the loop.  The inner `if items_count == 0: break` of the source
is unreachable under the surrounding guard and is mirrored verbatim. -/
def apiQueryLoop (remote : String → Nat → Option ApiJson) (hasOutput : Bool)
    (maxBooksPerQuery : Nat) (q : String) : Nat → Nat → AState → AState
  | 0, _, s => s
  | fuel + 1, startIndex, s =>
    if startIndex < maxBooksPerQuery then
      let s1 := { s with fetches := s.fetches ++ [(q, startIndex)] }
      match remote q startIndex with
      | some j =>
        match j.items with
        | some items =>
          if 0 < items.length then
            let s2 := items.foldl admitBook s1
            if items.length = 0 then s2
            else apiQueryLoop remote hasOutput maxBooksPerQuery q fuel
              (startIndex + items.length) (save100A hasOutput s2)
          else s1
        | none => s1
      | none => s1
    else s

/-- Embedding of the per-query persistence step (lines 146-152): after a query
finishes, if an output file is configured and the buffer is non-empty, write
the whole buffer. -/
def saveQueryA (hasOutput : Bool) (s : AState) : AState :=
  if hasOutput ∧ 0 < s.buffer.length
  then { s with saves := s.saves ++ [s.buffer] } else s

/-- Embedding of `collect_books_from_api` minus its checkpoint load: iterate
the per-query loop (cursor reset to 0, 500-request budget) over the worklist,
persisting after each query. -/
def collectBooksLoop (remote : String → Nat → Option ApiJson) (hasOutput : Bool)
    (maxBooksPerQuery : Nat) (queries : List String) (init : AState) : AState :=
  queries.foldl
    (fun s q => saveQueryA hasOutput (apiQueryLoop remote hasOutput maxBooksPerQuery q 500 0 s))
    init

/-- Embedding of `collect_books_from_api` (lines 88-158).  `output` is the
`output_file` argument: `none` when no output path is configured (no load, no
persists), `some cp` when a path is configured and the file currently has
state `cp`. -/
def collect_books_from_api (remote : String → Nat → Option ApiJson)
    (queries : List String) (maxBooksPerQuery : Nat)
    (output : Option ACheckpoint) : AState :=
  let init := match output with
    | some cp => (loadA cp).1
    | none => emptyA
  collectBooksLoop remote output.isSome maxBooksPerQuery queries init

/-- Embedding of the `__main__` block of `01_api_collection.py`
(lines 160-180): run the driver with an output file, then unconditionally
write the final buffer. -/
def apiMain (remote : String → Nat → Option ApiJson) (queries : List String)
    (maxBooksPerQuery : Nat) (cp : ACheckpoint) : AState :=
  let s := collect_books_from_api remote queries maxBooksPerQuery (some cp)
  { s with saves := s.saves ++ [s.buffer] }

/-! ## HTML source: `get_page` and the listing shapes (`02_scraping.py`) -/

/-- The extractable content of one `li.booklink` listing element: the stripped
text of its `span.title` and `span.subtitle` children (absent span = `none`),
and the `href` of its first anchor (absent anchor or absent attribute =
`none`; `get('href','')` returning `""` is the `some ""` case). -/
structure HtmlItem where
  title : Option String := none
  author : Option String := none
  href : Option String := none
deriving DecidableEq

/-- A response to one HTML GET: a 200 whose body BeautifulSoup parses (parsing
is total, so every 200 yields a document; `doc` is the list of `li.booklink`
elements the driver will extract from it), an HTTP error status raised by
`raise_for_status`, or a transport error. -/
inductive HtmlResponse where
  | ok (doc : List HtmlItem)
  | httpErr (status : Nat)
  | transportErr
deriving DecidableEq

/-- Embedding of `get_page` (`02_scraping.py`, lines 17-31).  Any
`RequestException` (HTTP error status or transport error) sleeps
`2 ** retry_count` seconds and retries while `retry_count < max_retries`;
exhaustion returns `None`.  Output: the parsed document (or `None`) and the
back-off sleeps performed.  `fuel` is `maxRetries + 1` at the wrapper and the
guarded recursion cannot exhaust it. -/
def getPageAux (remote : Nat → HtmlResponse) (maxRetries : Nat) :
    Nat → Nat → Nat → Option (List HtmlItem) × List Nat
  | 0, _, _ => (none, [])
  | fuel + 1, retryCount, idx =>
    match remote idx with
    | .ok doc => (some doc, [])
    | _ =>
      if retryCount < maxRetries then
        let rest := getPageAux remote maxRetries fuel (retryCount + 1) (idx + 1)
        (rest.1, 2 ^ retryCount :: rest.2)
      else (none, [])

/-- Embedding of `get_page` with its default budget argument. -/
def get_page (remote : Nat → HtmlResponse) (maxRetries : Nat) :
    Option (List HtmlItem) × List Nat :=
  getPageAux remote maxRetries (maxRetries + 1) 0 0

/-- The record built from one listing element. -/
structure HRecord where
  source : String := "project_gutenberg"
  title : Option String := none
  author : Option String := none
  detail_link : Option String := none
deriving DecidableEq

/-- Embedding of `parse_book_from_listing` (lines 33-59): copy title and
author texts when their spans are present, absolutize a truthy `href`, and
return the record only when `book_data.get('title')` is truthy.  Nothing in
the body can raise, so the `except` branch is dead. -/
def parse_book_from_listing (e : HtmlItem) : Option HRecord :=
  let r : HRecord :=
    { source := "project_gutenberg"
      title := e.title
      author := e.author
      detail_link := match e.href with
        | some h =>
          if h = "" then none
          else if h.startsWith "http" then some h
          else some ("https://www.gutenberg.org" ++ h)
        | none => none }
  match truthyStr e.title with
  | some _ => some r
  | none => none

/-- The dedup key a listing element would contribute: the truthy title of its
parsed record, if any. -/
def hKey (e : HtmlItem) : Option String :=
  match parse_book_from_listing e with
  | some bd => truthyStr bd.title
  | none => none

/-! ## HTML driver `scrape_gutenberg` (`02_scraping.py`, lines 105-206) -/

/-- Run state of the catalog scraper, mirroring `AState`: `buffer` is
`all_books`, `seen` is `seen_titles`. -/
structure HState where
  buffer : List HRecord := []
  seen : List String := []
  fetches : List (String × Nat) := []
  admits : Nat := 0
  saves : List (List HRecord) := []
deriving DecidableEq

def emptyH : HState := {}

/-- A checkpoint/output file for the scraper at startup. -/
inductive HCheckpoint where
  | missing
  | unreadable
  | table (cols : List String) (rows : List HRecord)

/-- Embedding of the scraper's checkpoint load (lines 108-115) together with
the seen-title seeding (lines 135-137): a readable file seeds `all_books` with
all of its rows, with no check on its columns, and `seen_titles` with the
truthy titles of those rows; a missing file is skipped silently; an unreadable
file logs a warning (the boolean output).  No case aborts the run. -/
def loadH : HCheckpoint → HState × Bool
  | .missing => (emptyH, false)
  | .unreadable => (emptyH, true)
  | .table _ rows =>
    ({ emptyH with
        buffer := rows
        seen := (rows.filterMap (fun r => truthyStr r.title)).dedup }, false)

/-- Embedding of the per-page item loop (lines 166-177): before each element,
stop if the target is reached; otherwise parse the element and admit it when
its title is truthy and unseen.  Returns the new state and
`books_collected_this_page`. -/
def processListings (minBooks : Nat) : List HtmlItem → HState → Nat → HState × Nat
  | [], s, c => (s, c)
  | e :: rest, s, c =>
    if minBooks ≤ s.buffer.length then (s, c)
    else
      match parse_book_from_listing e with
      | some bd =>
        match truthyStr bd.title with
        | some t =>
          if t ∈ s.seen then processListings minBooks rest s c
          else processListings minBooks rest
            { s with
              seen := t :: s.seen
              buffer := s.buffer ++ [bd]
              admits := s.admits + 1 } (c + 1)
        | none => processListings minBooks rest s c
      | none => processListings minBooks rest s c

/-- The scraper's periodic persistence check (lines 189-195), identical in
shape to the API one. -/
def save100H (hasOutput : Bool) (s : HState) : HState :=
  if hasOutput ∧ 0 < s.buffer.length ∧ s.buffer.length % 100 = 0
  then { s with saves := s.saves ++ [s.buffer] } else s

/-- Embedding of the per-category `while` loop (lines 145-198).  The guard is
`start_index < max_index and len(all_books) < min_books` with
`max_index = 10000`; the cursor starts at 1 and advances by the fixed
`items_per_page = 25`, so the loop body runs at most 400 times and `fuel`
(400 at the call site) can only run out together with the offset guard.
A failed fetch or a page with no `li.booklink` elements breaks; a page whose
items yield no new book increments the consecutive-empty-page streak and
breaks when it reaches `max_empty_pages = 5`; otherwise the streak resets.
Continuing runs the persistence check and advances the cursor by 25. -/
def catLoop (remote : String → Nat → Option (List HtmlItem)) (hasOutput : Bool)
    (minBooks : Nat) (q : String) : Nat → Nat → Nat → HState → HState
  | 0, _, _, s => s
  | fuel + 1, startIndex, streak, s =>
    if startIndex < 10000 ∧ s.buffer.length < minBooks then
      let s1 := { s with fetches := s.fetches ++ [(q, startIndex)] }
      match remote q startIndex with
      | none => s1
      | some books =>
        if books.length = 0 then s1
        else
          let p := processListings minBooks books s1 0
          if p.2 = 0 then
            if 5 ≤ streak + 1 then p.1
            else catLoop remote hasOutput minBooks q fuel (startIndex + 25)
              (streak + 1) (save100H hasOutput p.1)
          else catLoop remote hasOutput minBooks q fuel (startIndex + 25) 0
            (save100H hasOutput p.1)
    else s

/-- Embedding of the category loop (lines 139-201): stop the whole run once
the target is reached, otherwise run the per-category pagination loop (cursor
1, fresh streak).  No persistence happens between categories. -/
def scrapeCats (remote : String → Nat → Option (List HtmlItem)) (hasOutput : Bool)
    (minBooks : Nat) : List String → HState → HState
  | [], s => s
  | q :: rest, s =>
    if minBooks ≤ s.buffer.length then s
    else scrapeCats remote hasOutput minBooks rest
      (catLoop remote hasOutput minBooks q 400 1 0 s)

/-- The hard-coded category worklist of `scrape_gutenberg` (lines 119-130). -/
def gutenbergCategories : List String :=
  ["Adventure", "American Literature", "British Literature", "French Literature",
   "German Literature", "Russian Literature", "Classics of Literature", "Biographies",
   "Novels", "Short Stories", "Poetry", "Plays/Films/Dramas", "Romance",
   "Science-Fiction & Fantasy", "Crime", "Thrillers & Mystery", "Mythology",
   "History - American", "History - British", "History - European", "History - Ancient",
   "History - Medieval/Middle Ages", "History - Modern", "Art", "Architecture", "Music",
   "Religion/Spirituality", "Philosophy & Ethics", "Cooking & Drinking", "Sports/Hobbies",
   "Travel Writing", "Health & Medicine", "Mathematics", "Science - Physics",
   "Science - Chemistry/Biochemistry", "Science - Biology", "Business/Management",
   "Economics", "Law & Criminology", "Psychiatry/Psychology", "Sociology", "Politics"]

/-- Embedding of `scrape_gutenberg` (lines 105-206): checkpoint load (when an
output path is configured), then the category loop over the fixed worklist.
The function itself performs no final persist; that happens in `__main__`. -/
def scrape_gutenberg (remote : String → Nat → Option (List HtmlItem))
    (minBooks : Nat) (output : Option HCheckpoint) : HState :=
  let init := match output with
    | some cp => (loadH cp).1
    | none => emptyH
  scrapeCats remote output.isSome minBooks gutenbergCategories init

/-- Embedding of the `__main__` block of `02_scraping.py` (lines 208-218):
run the scraper with an output file, then unconditionally write the final
buffer. -/
def htmlMain (remote : String → Nat → Option (List HtmlItem)) (minBooks : Nat)
    (cp : HCheckpoint) : HState :=
  let s := scrape_gutenberg remote minBooks (some cp)
  { s with saves := s.saves ++ [s.buffer] }

/-! ## Year extraction (`04_clean_data.py`, lines 22-30, and
`02_scraping.py`, lines 84-87)

Both places run `re.search(r'\b(19|20)\d{2}\b', s)` and convert the matched
four digits with `int`.  The regex is embedded as an explicit left-to-right
scanner over the character list: a match needs a word boundary, the digits
`19` or `20`, two further digits, and a word boundary.  Word characters are
modelled for the ASCII range (`[A-Za-z0-9_]`), which is where the regex class
`\w` and this model agree. -/

/-- ASCII word character, the model of the regex class `\w`. -/
def isWordChar (c : Char) : Bool := c.isAlphanum || c = '_'

/-- A `\b` boundary test against the neighbouring character (`none` at the
ends of the string). -/
def boundaryOk : Option Char → Bool
  | none => true
  | some c => !isWordChar c

/-- The character pattern `(19|20)\d{2}`. -/
def yearDigits (c1 c2 c3 c4 : Char) : Bool :=
  ((c1 = '1' && c2 = '9') || (c1 = '2' && c2 = '0')) && c3.isDigit && c4.isDigit

/-- `int` of the four matched digit characters. -/
def yearVal (c1 c2 c3 c4 : Char) : Nat :=
  (c1.toNat - 48) * 1000 + (c2.toNat - 48) * 100 + (c3.toNat - 48) * 10 + (c4.toNat - 48)

/-- Attempt to match `\b(19|20)\d{2}\b` at the current position; `prev` is the
character just before the position. -/
def headYear (prev : Option Char) : List Char → Option Nat
  | c1 :: c2 :: c3 :: c4 :: rest =>
    if boundaryOk prev && yearDigits c1 c2 c3 c4 && boundaryOk rest.head?
    then some (yearVal c1 c2 c3 c4) else none
  | _ => none

/-- Leftmost search for `\b(19|20)\d{2}\b`, the embedding of `re.search` for
this pattern. -/
def scanYear (prev : Option Char) : List Char → Option Nat
  | [] => none
  | c :: rest =>
    match headYear prev (c :: rest) with
    | some y => some y
    | none => scanYear (some c) rest

/-- Embedding of `extract_year` (`04_clean_data.py`, lines 22-30): `None`
input (pandas `NaN` / a non-string cell) gives `None`; otherwise the first
standalone `(19|20)\d{2}` number, as an integer. -/
def extract_year : Option String → Option Nat
  | none => none
  | some s => scanYear none s.data

/-- Embedding of the release-date year extraction inside `get_book_details`
(`02_scraping.py`, lines 84-87), textually the same search and conversion:
the `year` detail is set exactly when this returns `some`. -/
def releaseDateYear (value : String) : Option Nat :=
  scanYear none value.data

/-- The claim-side reading of the pattern, as a plain decomposition: the
string contains four consecutive characters `19xx` or `20xx` (digits), not
preceded and not followed by a word character. -/
def YearPattern (c1 c2 c3 c4 : Char) : Prop :=
  ((c1 = '1' ∧ c2 = '9') ∨ (c1 = '2' ∧ c2 = '0')) ∧ c3.isDigit = true ∧ c4.isDigit = true

/-- Left-boundary condition of a decomposition relative to the character
preceding the scanned segment. -/
def LeftOk (prev : Option Char) (pre : List Char) : Prop :=
  match pre.getLast? with
  | some l => isWordChar l = false
  | none => boundaryOk prev = true

/-- `cs` contains a standalone four-digit year `19xx`/`20xx` somewhere after a
virtual preceding character `prev`. -/
def StandaloneYearFrom (prev : Option Char) (cs : List Char) : Prop :=
  ∃ pre c1 c2 c3 c4 suf, cs = pre ++ c1 :: c2 :: c3 :: c4 :: suf ∧
    YearPattern c1 c2 c3 c4 ∧ LeftOk prev pre ∧
    (∀ h, suf.head? = some h → isWordChar h = false)

/-- `cs` contains a standalone four-digit number beginning with 19 or 20:
a decomposition `pre ++ [c1,c2,c3,c4] ++ suf` where the four characters are
digits matching `19..`/`20..`, `pre` is empty or ends in a non-word character,
and `suf` is empty or starts with a non-word character. -/
def StandaloneYear (cs : List Char) : Prop := StandaloneYearFrom none cs

/-! ## The fetch schedule of the API per-query loop

The control flow of `apiQueryLoop` never consults the accumulated state:
which pages get fetched is a function of the remote source alone.  The
schedule is captured by `apiOffsets` and related to the loop below. -/

/-- The number of items on the page of `query` at offset `o` (0 when the
fetch fails or the body has no `items` array). -/
def apiPageLen (remote : String → Nat → Option ApiJson) (q : String) (o : Nat) : Nat :=
  match remote q o with
  | some j =>
    match j.items with
    | some items => items.length
    | none => 0
  | none => 0

/-- The items of the page of `query` at offset `o` (empty when the fetch
fails or the body has no `items` array). -/
def apiPageItems (remote : String → Nat → Option ApiJson) (q : String) (o : Nat) :
    List ApiItem :=
  match remote q o with
  | some j =>
    match j.items with
    | some items => items
    | none => []
  | none => []

/-- The start offsets `apiQueryLoop` fetches, in order, as a function of the
remote source only. -/
def apiOffsets (remote : String → Nat → Option ApiJson) (q : String)
    (maxB : Nat) : Nat → Nat → List Nat
  | 0, _ => []
  | fuel + 1, start =>
    if start < maxB then
      match remote q start with
      | some j =>
        match j.items with
        | some items =>
          if 0 < items.length then
            if items.length = 0 then [start]
            else start :: apiOffsets remote q maxB fuel (start + items.length)
          else [start]
        | none => [start]
      | none => [start]
    else []

theorem admitBook_fetches (s : AState) (i : ApiItem) :
    (admitBook s i).fetches = s.fetches := by
  cases h : truthyStr (parse_book_data i).id with
  | none => simp [admitBook, h]
  | some k => by_cases hk : k ∈ s.seen <;> simp [admitBook, h, hk]

theorem admitBook_saves (s : AState) (i : ApiItem) :
    (admitBook s i).saves = s.saves := by
  cases h : truthyStr (parse_book_data i).id with
  | none => simp [admitBook, h]
  | some k => by_cases hk : k ∈ s.seen <;> simp [admitBook, h, hk]

theorem foldl_admitBook_fetches (items : List ApiItem) :
    ∀ s : AState, (items.foldl admitBook s).fetches = s.fetches := by
  induction items with
  | nil => intro s; rfl
  | cons i rest ih => intro s; rw [List.foldl_cons, ih, admitBook_fetches]

theorem save100A_fetches (h : Bool) (s : AState) :
    (save100A h s).fetches = s.fetches := by
  unfold save100A; split <;> rfl

theorem save100A_buffer (h : Bool) (s : AState) :
    (save100A h s).buffer = s.buffer := by
  unfold save100A; split <;> rfl

theorem save100A_seen (h : Bool) (s : AState) :
    (save100A h s).seen = s.seen := by
  unfold save100A; split <;> rfl

theorem save100A_admits (h : Bool) (s : AState) :
    (save100A h s).admits = s.admits := by
  unfold save100A; split <;> rfl

theorem apiQueryLoop_zero (remote : String → Nat → Option ApiJson) (hOut : Bool)
    (maxB : Nat) (q : String) (start : Nat) (s : AState) :
    apiQueryLoop remote hOut maxB q 0 start s = s := rfl

theorem apiQueryLoop_stop (remote : String → Nat → Option ApiJson) (hOut : Bool)
    (maxB : Nat) (q : String) (fuel start : Nat) (s : AState)
    (hg : ¬ start < maxB) :
    apiQueryLoop remote hOut maxB q (fuel + 1) start s = s := by
  rw [apiQueryLoop]; exact if_neg hg

theorem apiQueryLoop_fail (remote : String → Nat → Option ApiJson) (hOut : Bool)
    (maxB : Nat) (q : String) (fuel start : Nat) (s : AState)
    (hg : start < maxB) (hrem : remote q start = none) :
    apiQueryLoop remote hOut maxB q (fuel + 1) start s =
      { s with fetches := s.fetches ++ [(q, start)] } := by
  rw [apiQueryLoop]
  simp only [if_pos hg, hrem]

theorem apiQueryLoop_noitems (remote : String → Nat → Option ApiJson) (hOut : Bool)
    (maxB : Nat) (q : String) (fuel start : Nat) (s : AState)
    (hg : start < maxB) (j : ApiJson) (hrem : remote q start = some j)
    (hit : j.items = none) :
    apiQueryLoop remote hOut maxB q (fuel + 1) start s =
      { s with fetches := s.fetches ++ [(q, start)] } := by
  rw [apiQueryLoop]
  simp [if_pos hg, hrem, hit]

theorem apiQueryLoop_emptypage (remote : String → Nat → Option ApiJson) (hOut : Bool)
    (maxB : Nat) (q : String) (fuel start : Nat) (s : AState)
    (hg : start < maxB) (j : ApiJson) (items : List ApiItem)
    (hrem : remote q start = some j) (hit : j.items = some items)
    (hlen : ¬ 0 < items.length) :
    apiQueryLoop remote hOut maxB q (fuel + 1) start s =
      { s with fetches := s.fetches ++ [(q, start)] } := by
  rw [apiQueryLoop]
  simp [if_pos hg, hrem, hit, hlen]

theorem apiQueryLoop_page (remote : String → Nat → Option ApiJson) (hOut : Bool)
    (maxB : Nat) (q : String) (fuel start : Nat) (s : AState)
    (hg : start < maxB) (j : ApiJson) (items : List ApiItem)
    (hrem : remote q start = some j) (hit : j.items = some items)
    (hlen : 0 < items.length) :
    apiQueryLoop remote hOut maxB q (fuel + 1) start s =
      apiQueryLoop remote hOut maxB q fuel (start + items.length)
        (save100A hOut (items.foldl admitBook
          { s with fetches := s.fetches ++ [(q, start)] })) := by
  have hne : ¬ items.length = 0 := by omega
  rw [apiQueryLoop]
  simp [if_pos hg, hrem, hit, hlen, hne]

/-- The pages `apiQueryLoop` fetches are exactly `apiOffsets`, a function of
the remote source alone: the accumulated state never influences which page is
requested next. -/
theorem apiQueryLoop_fetches (remote : String → Nat → Option ApiJson)
    (hOut : Bool) (maxB : Nat) (q : String) :
    ∀ (fuel start : Nat) (s : AState),
      (apiQueryLoop remote hOut maxB q fuel start s).fetches =
        s.fetches ++ (apiOffsets remote q maxB fuel start).map (fun o => (q, o)) := by
  intro fuel
  induction fuel with
  | zero => intro start s; simp [apiQueryLoop, apiOffsets]
  | succ fuel ih =>
    intro start s
    by_cases hg : start < maxB
    · cases hrem : remote q start with
      | none => simp [apiQueryLoop, apiOffsets, hg, hrem]
      | some j =>
        cases hit : j.items with
        | none => simp [apiQueryLoop, apiOffsets, hg, hrem, hit]
        | some items =>
          by_cases hlen : 0 < items.length
          · have hne : ¬ items.length = 0 := by omega
            simp [apiQueryLoop, apiOffsets, hg, hrem, hit, hlen, hne, ih,
              save100A_fetches, foldl_admitBook_fetches]
          · simp [apiQueryLoop, apiOffsets, hg, hrem, hit, hlen]
    · simp [apiQueryLoop, apiOffsets, hg]

/-- Nonempty fetch schedules start at the requested offset. -/
theorem apiOffsets_head (remote : String → Nat → Option ApiJson) (q : String)
    (maxB : Nat) : ∀ (fuel start : Nat),
      apiOffsets remote q maxB fuel start = [] ∨
      (apiOffsets remote q maxB fuel start).head? = some start := by
  intro fuel start
  cases fuel with
  | zero => left; rfl
  | succ fuel =>
    by_cases hg : start < maxB
    · cases hrem : remote q start with
      | none => right; simp [apiOffsets, hg, hrem]
      | some j =>
        cases hit : j.items with
        | none => right; simp [apiOffsets, hg, hrem, hit]
        | some items =>
          by_cases hlen : 0 < items.length
          · have hne : ¬ items.length = 0 := by omega
            right; simp [apiOffsets, hg, hrem, hit, hlen, hne]
          · right; simp [apiOffsets, hg, hrem, hit, hlen]
    · left; simp [apiOffsets, hg]

/-- Cursor correctness of the API loop: along the fetch schedule, each next
offset is exactly the previous offset plus the number of items the previous
page returned. -/
theorem apiOffsets_chain (remote : String → Nat → Option ApiJson) (q : String)
    (maxB : Nat) : ∀ (fuel start : Nat),
      (apiOffsets remote q maxB fuel start).Chain'
        (fun a b => b = a + apiPageLen remote q a) := by
  intro fuel
  induction fuel with
  | zero => intro start; simp [apiOffsets]
  | succ fuel ih =>
    intro start
    by_cases hg : start < maxB
    · cases hrem : remote q start with
      | none => simp [apiOffsets, hg, hrem]
      | some j =>
        cases hit : j.items with
        | none => simp [apiOffsets, hg, hrem, hit]
        | some items =>
          by_cases hlen : 0 < items.length
          · have hne : ¬ items.length = 0 := by omega
            have hstep : apiOffsets remote q maxB (fuel + 1) start =
                start :: apiOffsets remote q maxB fuel (start + items.length) := by
              simp [apiOffsets, hg, hrem, hit, hlen, hne]
            rw [hstep, List.chain'_cons']
            refine ⟨?_, ih (start + items.length)⟩
            intro y hy
            have hl : apiPageLen remote q start = items.length := by
              simp [apiPageLen, hrem, hit]
            rcases apiOffsets_head remote q maxB fuel (start + items.length) with he | hh
            · rw [he] at hy; simp at hy
            · rw [hh] at hy
              simp at hy
              omega
          · simp [apiOffsets, hg, hrem, hit, hlen]
    · simp [apiOffsets, hg]

/-! ## Basic lemmas about the scraper's page processing -/

theorem processListings_fetches (minB : Nat) :
    ∀ (items : List HtmlItem) (s : HState) (c : Nat),
      (processListings minB items s c).1.fetches = s.fetches := by
  intro items
  induction items with
  | nil => intro s c; rfl
  | cons e rest ih =>
    intro s c
    by_cases hm : minB ≤ s.buffer.length
    · simp [processListings, hm]
    · cases hp : parse_book_from_listing e with
      | none => simp [processListings, hm, hp, ih]
      | some bd =>
        cases ht : truthyStr bd.title with
        | none => simp [processListings, hm, hp, ht, ih]
        | some t =>
          by_cases hs : t ∈ s.seen <;>
            simp [processListings, hm, hp, ht, hs, ih]

theorem processListings_saves (minB : Nat) :
    ∀ (items : List HtmlItem) (s : HState) (c : Nat),
      (processListings minB items s c).1.saves = s.saves := by
  intro items
  induction items with
  | nil => intro s c; rfl
  | cons e rest ih =>
    intro s c
    by_cases hm : minB ≤ s.buffer.length
    · simp [processListings, hm]
    · cases hp : parse_book_from_listing e with
      | none => simp [processListings, hm, hp, ih]
      | some bd =>
        cases ht : truthyStr bd.title with
        | none => simp [processListings, hm, hp, ht, ih]
        | some t =>
          by_cases hs : t ∈ s.seen <;>
            simp [processListings, hm, hp, ht, hs, ih]

theorem processListings_buffer (minB : Nat) :
    ∀ (items : List HtmlItem) (s : HState) (c : Nat),
      ∃ t, (processListings minB items s c).1.buffer = s.buffer ++ t := by
  intro items
  induction items with
  | nil => intro s c; exact ⟨[], by simp [processListings]⟩
  | cons e rest ih =>
    intro s c
    by_cases hm : minB ≤ s.buffer.length
    · exact ⟨[], by simp [processListings, hm]⟩
    · cases hp : parse_book_from_listing e with
      | none => simpa [processListings, hm, hp] using ih s c
      | some bd =>
        cases ht : truthyStr bd.title with
        | none => simpa [processListings, hm, hp, ht] using ih s c
        | some t =>
          by_cases hs : t ∈ s.seen
          · simpa [processListings, hm, hp, ht, hs] using ih s c
          · obtain ⟨u, hu⟩ := ih
              { s with
                seen := t :: s.seen
                buffer := s.buffer ++ [bd]
                admits := s.admits + 1 } (c + 1)
            refine ⟨bd :: u, ?_⟩
            simp [processListings, hm, hp, ht, hs, hu]

theorem processListings_len_mono (minB : Nat) (items : List HtmlItem)
    (s : HState) (c : Nat) :
    s.buffer.length ≤ (processListings minB items s c).1.buffer.length := by
  obtain ⟨t, ht⟩ := processListings_buffer minB items s c
  simp [ht]

theorem processListings_seen_mono (minB : Nat) :
    ∀ (items : List HtmlItem) (s : HState) (c : Nat) (x : String),
      x ∈ s.seen → x ∈ (processListings minB items s c).1.seen := by
  intro items
  induction items with
  | nil => intro s c x hx; exact hx
  | cons e rest ih =>
    intro s c x hx
    by_cases hm : minB ≤ s.buffer.length
    · simpa [processListings, hm] using hx
    · cases hp : parse_book_from_listing e with
      | none => simp [processListings, hm, hp, ih s c x hx]
      | some bd =>
        cases ht : truthyStr bd.title with
        | none => simp [processListings, hm, hp, ht, ih s c x hx]
        | some t =>
          by_cases hs : t ∈ s.seen
          · simp [processListings, hm, hp, ht, hs, ih s c x hx]
          · have hx2 := ih
              { s with
                seen := t :: s.seen
                buffer := s.buffer ++ [bd]
                admits := s.admits + 1 } (c + 1) x (by simp [hx])
            simp [processListings, hm, hp, ht, hs, hx2]

/-- Every listing element of a fully processed page leaves its key in the seen
set; the page was fully processed whenever the final buffer is still short of
the target. -/
theorem processListings_coverage (minB : Nat) :
    ∀ (items : List HtmlItem) (s : HState) (c : Nat),
      (processListings minB items s c).1.buffer.length < minB →
      ∀ e ∈ items, ∀ k, hKey e = some k →
        k ∈ (processListings minB items s c).1.seen := by
  intro items
  induction items with
  | nil => intro s c _ e he; exact absurd he (List.not_mem_nil e)
  | cons e rest ih =>
    intro s c hshort f hf k hk
    by_cases hm : minB ≤ s.buffer.length
    · exfalso
      rw [processListings, if_pos hm] at hshort
      simp at hshort
      omega
    · rcases List.mem_cons.1 hf with rfl | hfr
      · -- the head element: its key lands in the seen set now, and stays
        cases hp : parse_book_from_listing f with
        | none => simp [hKey, hp] at hk
        | some bd =>
          simp only [hKey, hp] at hk
          by_cases hs : k ∈ s.seen
          · have hmono := processListings_seen_mono minB rest s c k hs
            simp [processListings, hm, hp, hk, hs, hmono]
          · have hmono := processListings_seen_mono minB rest
              { s with
                seen := k :: s.seen
                buffer := s.buffer ++ [bd]
                admits := s.admits + 1 } (c + 1) k (by simp)
            simp [processListings, hm, hp, hk, hs, hmono]
      · -- an element of the tail: induction after the head step
        simp only [processListings, if_neg hm] at hshort ⊢
        cases hp : parse_book_from_listing e with
        | none =>
          simp only [hp] at hshort ⊢
          exact ih s c hshort f hfr k hk
        | some bd =>
          cases ht : truthyStr bd.title with
          | none =>
            simp only [hp, ht] at hshort ⊢
            exact ih s c hshort f hfr k hk
          | some t =>
            by_cases hs : t ∈ s.seen
            · simp only [hp, ht, if_pos hs] at hshort ⊢
              exact ih s c hshort f hfr k hk
            · simp only [hp, ht, if_neg hs] at hshort ⊢
              exact ih _ _ hshort f hfr k hk

/-- A page all of whose keys are already seen changes nothing: no admission,
zero yield. -/
theorem processListings_frozen (minB : Nat) :
    ∀ (items : List HtmlItem) (s : HState) (c : Nat),
      s.buffer.length < minB →
      (∀ e ∈ items, ∀ k, hKey e = some k → k ∈ s.seen) →
      processListings minB items s c = (s, c) := by
  intro items
  induction items with
  | nil => intro s c _ _; rfl
  | cons e rest ih =>
    intro s c hlen hcov
    have hm : ¬ minB ≤ s.buffer.length := by omega
    have htail : ∀ f ∈ rest, ∀ k, hKey f = some k → k ∈ s.seen :=
      fun f hf => hcov f (by simp [hf])
    cases hp : parse_book_from_listing e with
    | none => simp [processListings, hm, hp, ih s c hlen htail]
    | some bd =>
      cases ht : truthyStr bd.title with
      | none => simp [processListings, hm, hp, ht, ih s c hlen htail]
      | some t =>
        have hts : t ∈ s.seen := hcov e (by simp) t (by simp [hKey, hp, ht])
        simp [processListings, hm, hp, ht, hts, ih s c hlen htail]

theorem save100H_buffer (h : Bool) (s : HState) :
    (save100H h s).buffer = s.buffer := by
  unfold save100H; split <;> rfl

theorem save100H_seen (h : Bool) (s : HState) :
    (save100H h s).seen = s.seen := by
  unfold save100H; split <;> rfl

theorem save100H_fetches (h : Bool) (s : HState) :
    (save100H h s).fetches = s.fetches := by
  unfold save100H; split <;> rfl

theorem save100H_admits (h : Bool) (s : HState) :
    (save100H h s).admits = s.admits := by
  unfold save100H; split <;> rfl

theorem save100H_saves_mem (h : Bool) (s : HState) :
    ∀ b ∈ (save100H h s).saves,
      b ∈ s.saves ∨ (b = s.buffer ∧ 0 < s.buffer.length ∧ s.buffer.length % 100 = 0) := by
  intro b hb
  unfold save100H at hb
  split at hb
  case isTrue hc =>
    rcases List.mem_append.1 hb with h1 | h2
    · exact Or.inl h1
    · right
      simp at h2
      exact ⟨h2, hc.2.1, hc.2.2⟩
  case isFalse => exact Or.inl hb

/-! ## Basic lemmas about the scraper's per-category loop -/

theorem range_map_shift (q : String) (start n : Nat) :
    (q, start) :: (List.range n).map (fun j => (q, start + 25 + 25 * j)) =
      (List.range (n + 1)).map (fun j => (q, start + 25 * j)) := by
  rw [List.range_succ_eq_map, List.map_cons, List.map_map]
  refine congrArg₂ List.cons (by simp) ?_
  refine List.map_congr_left ?_
  intro a _
  simp only [Function.comp_apply, Prod.mk.injEq, true_and]
  omega

/-- A category loop with exhausted fuel is the identity (this case coincides
with the offset guard turning false, see `catLoop`). -/
theorem catLoop_zero (remote : String → Nat → Option (List HtmlItem))
    (hOut : Bool) (minB : Nat) (q : String) (start streak : Nat) (s : HState) :
    catLoop remote hOut minB q 0 start streak s = s := rfl

/-- The guard fails: the loop exits without fetching. -/
theorem catLoop_stop (remote : String → Nat → Option (List HtmlItem))
    (hOut : Bool) (minB : Nat) (q : String) (fuel start streak : Nat) (s : HState)
    (hg : ¬ (start < 10000 ∧ s.buffer.length < minB)) :
    catLoop remote hOut minB q (fuel + 1) start streak s = s := by
  rw [catLoop]; exact if_neg hg

/-- The fetch fails: break, having recorded the fetch. -/
theorem catLoop_fail (remote : String → Nat → Option (List HtmlItem))
    (hOut : Bool) (minB : Nat) (q : String) (fuel start streak : Nat) (s : HState)
    (hg : start < 10000 ∧ s.buffer.length < minB)
    (hrem : remote q start = none) :
    catLoop remote hOut minB q (fuel + 1) start streak s =
      { s with fetches := s.fetches ++ [(q, start)] } := by
  rw [catLoop]
  simp only [if_pos hg, hrem]

/-- The page has no listing elements: break, having recorded the fetch. -/
theorem catLoop_nobooks (remote : String → Nat → Option (List HtmlItem))
    (hOut : Bool) (minB : Nat) (q : String) (fuel start streak : Nat) (s : HState)
    (hg : start < 10000 ∧ s.buffer.length < minB) (books : List HtmlItem)
    (hrem : remote q start = some books) (hb : books.length = 0) :
    catLoop remote hOut minB q (fuel + 1) start streak s =
      { s with fetches := s.fetches ++ [(q, start)] } := by
  rw [catLoop]
  simp only [if_pos hg, hrem, if_pos hb]

/-- The page has listing elements: process them, then break on a full
empty-page streak or continue at `start + 25`. -/
theorem catLoop_step (remote : String → Nat → Option (List HtmlItem))
    (hOut : Bool) (minB : Nat) (q : String) (fuel start streak : Nat) (s : HState)
    (hg : start < 10000 ∧ s.buffer.length < minB) (books : List HtmlItem)
    (hrem : remote q start = some books) (hb : ¬ books.length = 0) :
    catLoop remote hOut minB q (fuel + 1) start streak s =
      (if (processListings minB books { s with fetches := s.fetches ++ [(q, start)] } 0).2 = 0 then
        if 5 ≤ streak + 1 then
          (processListings minB books { s with fetches := s.fetches ++ [(q, start)] } 0).1
        else
          catLoop remote hOut minB q fuel (start + 25) (streak + 1)
            (save100H hOut
              (processListings minB books { s with fetches := s.fetches ++ [(q, start)] } 0).1)
      else
        catLoop remote hOut minB q fuel (start + 25) 0
          (save100H hOut
            (processListings minB books { s with fetches := s.fetches ++ [(q, start)] } 0).1)) := by
  rw [catLoop]
  simp only [if_pos hg, hrem, if_neg hb]

theorem range_map_one (q : String) (start : Nat) :
    (List.range 1).map (fun j => (q, start + 25 * j)) = [(q, start)] := by
  simp [List.range_succ]

/-- The fetch offsets of one run of the per-category loop form the arithmetic
sequence `start, start + 25, start + 50, ...`: the catalog cursor advances by
the fixed page stride 25, never by the number of items a page returned. -/
theorem catLoop_fetches (remote : String → Nat → Option (List HtmlItem))
    (hOut : Bool) (minB : Nat) (q : String) :
    ∀ (fuel start streak : Nat) (s : HState),
      ∃ n, (catLoop remote hOut minB q fuel start streak s).fetches =
        s.fetches ++ (List.range n).map (fun j => (q, start + 25 * j)) := by
  intro fuel
  induction fuel with
  | zero => intro start streak s; exact ⟨0, by simp [catLoop_zero]⟩
  | succ fuel ih =>
    intro start streak s
    by_cases hg : start < 10000 ∧ s.buffer.length < minB
    · cases hrem : remote q start with
      | none =>
        refine ⟨1, ?_⟩
        rw [catLoop_fail remote hOut minB q fuel start streak s hg hrem, range_map_one]
      | some books =>
        by_cases hb : books.length = 0
        · refine ⟨1, ?_⟩
          rw [catLoop_nobooks remote hOut minB q fuel start streak s hg books hrem hb,
            range_map_one]
        · rw [catLoop_step remote hOut minB q fuel start streak s hg books hrem hb]
          have hpf : (processListings minB books
              { s with fetches := s.fetches ++ [(q, start)] } 0).1.fetches =
              s.fetches ++ [(q, start)] := by
            rw [processListings_fetches]
          by_cases hp2 : (processListings minB books
              { s with fetches := s.fetches ++ [(q, start)] } 0).2 = 0
          · by_cases hstreak : 5 ≤ streak + 1
            · refine ⟨1, ?_⟩
              rw [if_pos hp2, if_pos hstreak, hpf, range_map_one]
            · obtain ⟨n, hn⟩ := ih (start + 25) (streak + 1)
                (save100H hOut (processListings minB books
                  { s with fetches := s.fetches ++ [(q, start)] } 0).1)
              refine ⟨n + 1, ?_⟩
              rw [if_pos hp2, if_neg hstreak, hn, save100H_fetches, hpf,
                List.append_assoc, List.singleton_append, range_map_shift]
          · obtain ⟨n, hn⟩ := ih (start + 25) 0
              (save100H hOut (processListings minB books
                { s with fetches := s.fetches ++ [(q, start)] } 0).1)
            refine ⟨n + 1, ?_⟩
            rw [if_neg hp2, hn, save100H_fetches, hpf,
              List.append_assoc, List.singleton_append, range_map_shift]
    · exact ⟨0, by simp [catLoop_stop remote hOut minB q fuel start streak s hg]⟩

theorem catLoop_buffer (remote : String → Nat → Option (List HtmlItem))
    (hOut : Bool) (minB : Nat) (q : String) :
    ∀ (fuel start streak : Nat) (s : HState),
      ∃ t, (catLoop remote hOut minB q fuel start streak s).buffer = s.buffer ++ t := by
  intro fuel
  induction fuel with
  | zero => intro start streak s; exact ⟨[], by simp [catLoop_zero]⟩
  | succ fuel ih =>
    intro start streak s
    by_cases hg : start < 10000 ∧ s.buffer.length < minB
    · cases hrem : remote q start with
      | none =>
        exact ⟨[], by rw [catLoop_fail remote hOut minB q fuel start streak s hg hrem]; simp⟩
      | some books =>
        by_cases hb : books.length = 0
        · exact ⟨[], by
            rw [catLoop_nobooks remote hOut minB q fuel start streak s hg books hrem hb]; simp⟩
        · rw [catLoop_step remote hOut minB q fuel start streak s hg books hrem hb]
          obtain ⟨u, hu⟩ := processListings_buffer minB books
            { s with fetches := s.fetches ++ [(q, start)] } 0
          by_cases hp2 : (processListings minB books
              { s with fetches := s.fetches ++ [(q, start)] } 0).2 = 0
          · by_cases hstreak : 5 ≤ streak + 1
            · exact ⟨u, by rw [if_pos hp2, if_pos hstreak, hu]⟩
            · obtain ⟨v, hv⟩ := ih (start + 25) (streak + 1)
                (save100H hOut (processListings minB books
                  { s with fetches := s.fetches ++ [(q, start)] } 0).1)
              refine ⟨u ++ v, ?_⟩
              rw [if_pos hp2, if_neg hstreak, hv, save100H_buffer, hu, List.append_assoc]
          · obtain ⟨v, hv⟩ := ih (start + 25) 0
              (save100H hOut (processListings minB books
                { s with fetches := s.fetches ++ [(q, start)] } 0).1)
            refine ⟨u ++ v, ?_⟩
            rw [if_neg hp2, hv, save100H_buffer, hu, List.append_assoc]
    · exact ⟨[], by simp [catLoop_stop remote hOut minB q fuel start streak s hg]⟩

theorem catLoop_len_mono (remote : String → Nat → Option (List HtmlItem))
    (hOut : Bool) (minB : Nat) (q : String) (fuel start streak : Nat) (s : HState) :
    s.buffer.length ≤ (catLoop remote hOut minB q fuel start streak s).buffer.length := by
  obtain ⟨t, ht⟩ := catLoop_buffer remote hOut minB q fuel start streak s
  simp [ht]

theorem catLoop_seen_mono (remote : String → Nat → Option (List HtmlItem))
    (hOut : Bool) (minB : Nat) (q : String) :
    ∀ (fuel start streak : Nat) (s : HState) (x : String),
      x ∈ s.seen → x ∈ (catLoop remote hOut minB q fuel start streak s).seen := by
  intro fuel
  induction fuel with
  | zero => intro start streak s x hx; simpa [catLoop_zero] using hx
  | succ fuel ih =>
    intro start streak s x hx
    by_cases hg : start < 10000 ∧ s.buffer.length < minB
    · cases hrem : remote q start with
      | none =>
        rw [catLoop_fail remote hOut minB q fuel start streak s hg hrem]; exact hx
      | some books =>
        by_cases hb : books.length = 0
        · rw [catLoop_nobooks remote hOut minB q fuel start streak s hg books hrem hb]
          exact hx
        · rw [catLoop_step remote hOut minB q fuel start streak s hg books hrem hb]
          have hm := processListings_seen_mono minB books
            { s with fetches := s.fetches ++ [(q, start)] } 0 x hx
          by_cases hp2 : (processListings minB books
              { s with fetches := s.fetches ++ [(q, start)] } 0).2 = 0
          · by_cases hstreak : 5 ≤ streak + 1
            · rw [if_pos hp2, if_pos hstreak]; exact hm
            · rw [if_pos hp2, if_neg hstreak]
              exact ih (start + 25) (streak + 1) _ x (by rw [save100H_seen]; exact hm)
          · rw [if_neg hp2]
            exact ih (start + 25) 0 _ x (by rw [save100H_seen]; exact hm)
    · rw [catLoop_stop remote hOut minB q fuel start streak s hg]; exact hx

/-- Every snapshot persisted during a category loop either predates the loop
or is a wholesale snapshot of the buffer at a moment when its length was a
positive multiple of 100 (and the final buffer extends it). -/
theorem catLoop_saves_mem (remote : String → Nat → Option (List HtmlItem))
    (hOut : Bool) (minB : Nat) (q : String) :
    ∀ (fuel start streak : Nat) (s : HState),
      ∀ b ∈ (catLoop remote hOut minB q fuel start streak s).saves,
        b ∈ s.saves ∨ (0 < b.length ∧ b.length % 100 = 0 ∧
          ∃ t, (catLoop remote hOut minB q fuel start streak s).buffer = b ++ t) := by
  intro fuel
  induction fuel with
  | zero => intro start streak s b hb; exact Or.inl (by simpa [catLoop_zero] using hb)
  | succ fuel ih =>
    intro start streak s b hb
    by_cases hg : start < 10000 ∧ s.buffer.length < minB
    · cases hrem : remote q start with
      | none =>
        rw [catLoop_fail remote hOut minB q fuel start streak s hg hrem] at hb
        exact Or.inl hb
      | some books =>
        by_cases hbl : books.length = 0
        · rw [catLoop_nobooks remote hOut minB q fuel start streak s hg books hrem hbl] at hb
          exact Or.inl hb
        · rw [catLoop_step remote hOut minB q fuel start streak s hg books hrem hbl] at hb ⊢
          have hps : (processListings minB books
              { s with fetches := s.fetches ++ [(q, start)] } 0).1.saves = s.saves := by
            rw [processListings_saves]
          by_cases hp2 : (processListings minB books
              { s with fetches := s.fetches ++ [(q, start)] } 0).2 = 0
          · by_cases hstreak : 5 ≤ streak + 1
            · rw [if_pos hp2, if_pos hstreak] at hb
              rw [hps] at hb
              exact Or.inl hb
            · rw [if_pos hp2, if_neg hstreak] at hb ⊢
              rcases ih (start + 25) (streak + 1) _ b hb with hin | hnew
              · rcases save100H_saves_mem hOut _ b hin with hin2 | ⟨hbeq, hpos, hmod⟩
                · rw [hps] at hin2
                  exact Or.inl hin2
                · refine Or.inr ⟨by rw [hbeq]; exact hpos, by rw [hbeq]; exact hmod, ?_⟩
                  obtain ⟨t, ht⟩ := catLoop_buffer remote hOut minB q fuel (start + 25)
                    (streak + 1) (save100H hOut (processListings minB books
                      { s with fetches := s.fetches ++ [(q, start)] } 0).1)
                  rw [ht, save100H_buffer, ← hbeq]
                  exact ⟨t, rfl⟩
              · exact Or.inr hnew
          · rw [if_neg hp2] at hb ⊢
            rcases ih (start + 25) 0 _ b hb with hin | hnew
            · rcases save100H_saves_mem hOut _ b hin with hin2 | ⟨hbeq, hpos, hmod⟩
              · rw [hps] at hin2
                exact Or.inl hin2
              · refine Or.inr ⟨by rw [hbeq]; exact hpos, by rw [hbeq]; exact hmod, ?_⟩
                obtain ⟨t, ht⟩ := catLoop_buffer remote hOut minB q fuel (start + 25)
                  0 (save100H hOut (processListings minB books
                    { s with fetches := s.fetches ++ [(q, start)] } 0).1)
                rw [ht, save100H_buffer, ← hbeq]
                exact ⟨t, rfl⟩
            · exact Or.inr hnew
    · rw [catLoop_stop remote hOut minB q fuel start streak s hg] at hb
      exact Or.inl hb

/-! ## Basic lemmas about the scraper's category loop -/

theorem scrapeCats_freeze (remote : String → Nat → Option (List HtmlItem))
    (hOut : Bool) (minB : Nat) :
    ∀ (cats : List String) (s : HState), minB ≤ s.buffer.length →
      scrapeCats remote hOut minB cats s = s := by
  intro cats s h
  cases cats with
  | nil => rfl
  | cons q rest => rw [scrapeCats]; exact if_pos h

theorem scrapeCats_buffer (remote : String → Nat → Option (List HtmlItem))
    (hOut : Bool) (minB : Nat) :
    ∀ (cats : List String) (s : HState),
      ∃ t, (scrapeCats remote hOut minB cats s).buffer = s.buffer ++ t := by
  intro cats
  induction cats with
  | nil => intro s; exact ⟨[], by simp [scrapeCats]⟩
  | cons q rest ih =>
    intro s
    by_cases hm : minB ≤ s.buffer.length
    · exact ⟨[], by rw [scrapeCats, if_pos hm]; simp⟩
    · rw [scrapeCats, if_neg hm]
      obtain ⟨u, hu⟩ := catLoop_buffer remote hOut minB q 400 1 0 s
      obtain ⟨v, hv⟩ := ih (catLoop remote hOut minB q 400 1 0 s)
      exact ⟨u ++ v, by rw [hv, hu, List.append_assoc]⟩

theorem scrapeCats_len_mono (remote : String → Nat → Option (List HtmlItem))
    (hOut : Bool) (minB : Nat) (cats : List String) (s : HState) :
    s.buffer.length ≤ (scrapeCats remote hOut minB cats s).buffer.length := by
  obtain ⟨t, ht⟩ := scrapeCats_buffer remote hOut minB cats s
  simp [ht]

theorem scrapeCats_seen_mono (remote : String → Nat → Option (List HtmlItem))
    (hOut : Bool) (minB : Nat) :
    ∀ (cats : List String) (s : HState) (x : String),
      x ∈ s.seen → x ∈ (scrapeCats remote hOut minB cats s).seen := by
  intro cats
  induction cats with
  | nil => intro s x hx; exact hx
  | cons q rest ih =>
    intro s x hx
    by_cases hm : minB ≤ s.buffer.length
    · rw [scrapeCats, if_pos hm]; exact hx
    · rw [scrapeCats, if_neg hm]
      exact ih _ x (catLoop_seen_mono remote hOut minB q 400 1 0 s x hx)

theorem scrapeCats_saves_mem (remote : String → Nat → Option (List HtmlItem))
    (hOut : Bool) (minB : Nat) :
    ∀ (cats : List String) (s : HState),
      ∀ b ∈ (scrapeCats remote hOut minB cats s).saves,
        b ∈ s.saves ∨ (0 < b.length ∧ b.length % 100 = 0 ∧
          ∃ t, (scrapeCats remote hOut minB cats s).buffer = b ++ t) := by
  intro cats
  induction cats with
  | nil => intro s b hb; exact Or.inl hb
  | cons q rest ih =>
    intro s b hb
    by_cases hm : minB ≤ s.buffer.length
    · rw [scrapeCats, if_pos hm] at hb
      exact Or.inl hb
    · rw [scrapeCats, if_neg hm] at hb ⊢
      rcases ih _ b hb with hin | hnew
      · rcases catLoop_saves_mem remote hOut minB q 400 1 0 s b hin with hin2 | ⟨hpos, hmod, t, ht⟩
        · exact Or.inl hin2
        · refine Or.inr ⟨hpos, hmod, ?_⟩
          obtain ⟨v, hv⟩ := scrapeCats_buffer remote hOut minB rest
            (catLoop remote hOut minB q 400 1 0 s)
          exact ⟨t ++ v, by rw [hv, ht, List.append_assoc]⟩
      · exact Or.inr hnew

/-! ## Replay: a second category-loop run against a seen-set that covers the
first run admits nothing.

`catLoop_replay` relates a reference run (state `s₁`, streak `streak₁`) to a
replay (state `s₂`, streak `streak₂`) over the same remote source from the
same cursor: if the replay's buffer is still short of the target, no longer
than what the reference run ends with, and its seen-set contains every title
the reference run ever saw, then the replay leaves buffer, seen-set and
admission count untouched. -/

theorem catLoop_replay (remote : String → Nat → Option (List HtmlItem))
    (hOut : Bool) (minB : Nat) (q : String) :
    ∀ (fuel start streak₁ streak₂ : Nat) (s₁ s₂ : HState),
      streak₁ ≤ streak₂ →
      s₂.buffer.length < minB →
      (catLoop remote hOut minB q fuel start streak₁ s₁).buffer.length ≤ s₂.buffer.length →
      (∀ t, t ∈ (catLoop remote hOut minB q fuel start streak₁ s₁).seen → t ∈ s₂.seen) →
      (catLoop remote hOut minB q fuel start streak₂ s₂).buffer = s₂.buffer ∧
      (catLoop remote hOut minB q fuel start streak₂ s₂).seen = s₂.seen ∧
      (catLoop remote hOut minB q fuel start streak₂ s₂).admits = s₂.admits := by
  intro fuel
  induction fuel with
  | zero =>
    intro start streak₁ streak₂ s₁ s₂ _ _ _ _
    exact ⟨rfl, rfl, rfl⟩
  | succ fuel ih =>
    intro start streak₁ streak₂ s₁ s₂ hstreak hlen₂ hRlen hRseen
    by_cases h10 : start < 10000
    · have hg₂ : start < 10000 ∧ s₂.buffer.length < minB := ⟨h10, hlen₂⟩
      by_cases hlen₁ : s₁.buffer.length < minB
      · have hg₁ : start < 10000 ∧ s₁.buffer.length < minB := ⟨h10, hlen₁⟩
        cases hrem : remote q start with
        | none =>
          rw [catLoop_fail remote hOut minB q fuel start streak₂ s₂ hg₂ hrem]
          exact ⟨rfl, rfl, rfl⟩
        | some books =>
          by_cases hb : books.length = 0
          · rw [catLoop_nobooks remote hOut minB q fuel start streak₂ s₂ hg₂ books hrem hb]
            exact ⟨rfl, rfl, rfl⟩
          · rw [catLoop_step remote hOut minB q fuel start streak₁ s₁ hg₁ books hrem hb]
              at hRlen hRseen
            -- run 1's post-page state stays below the target and inside `s₂.seen`
            have hp1len : (processListings minB books
                { s₁ with fetches := s₁.fetches ++ [(q, start)] } 0).1.buffer.length
                  ≤ s₂.buffer.length := by
              by_cases hp2 : (processListings minB books
                  { s₁ with fetches := s₁.fetches ++ [(q, start)] } 0).2 = 0
              · by_cases hstq : 5 ≤ streak₁ + 1
                · rw [if_pos hp2, if_pos hstq] at hRlen; exact hRlen
                · rw [if_pos hp2, if_neg hstq] at hRlen
                  refine le_trans ?_ hRlen
                  have hm := catLoop_len_mono remote hOut minB q fuel (start + 25)
                    (streak₁ + 1) (save100H hOut (processListings minB books
                      { s₁ with fetches := s₁.fetches ++ [(q, start)] } 0).1)
                  rwa [save100H_buffer] at hm
              · rw [if_neg hp2] at hRlen
                refine le_trans ?_ hRlen
                have hm := catLoop_len_mono remote hOut minB q fuel (start + 25)
                  0 (save100H hOut (processListings minB books
                    { s₁ with fetches := s₁.fetches ++ [(q, start)] } 0).1)
                rwa [save100H_buffer] at hm
            have hp1seen : ∀ t, t ∈ (processListings minB books
                { s₁ with fetches := s₁.fetches ++ [(q, start)] } 0).1.seen →
                t ∈ s₂.seen := by
              intro t htm
              by_cases hp2 : (processListings minB books
                  { s₁ with fetches := s₁.fetches ++ [(q, start)] } 0).2 = 0
              · by_cases hstq : 5 ≤ streak₁ + 1
                · rw [if_pos hp2, if_pos hstq] at hRseen; exact hRseen t htm
                · rw [if_pos hp2, if_neg hstq] at hRseen
                  refine hRseen t ?_
                  refine catLoop_seen_mono remote hOut minB q fuel (start + 25)
                    (streak₁ + 1) _ t ?_
                  rw [save100H_seen]; exact htm
              · rw [if_neg hp2] at hRseen
                refine hRseen t ?_
                refine catLoop_seen_mono remote hOut minB q fuel (start + 25) 0 _ t ?_
                rw [save100H_seen]; exact htm
            have hcov : ∀ e ∈ books, ∀ k, hKey e = some k → k ∈ s₂.seen := by
              intro e he k hk
              exact hp1seen k (processListings_coverage minB books
                { s₁ with fetches := s₁.fetches ++ [(q, start)] } 0
                (lt_of_le_of_lt hp1len hlen₂) e he k hk)
            have hfrozen : processListings minB books
                { s₂ with fetches := s₂.fetches ++ [(q, start)] } 0 =
                ({ s₂ with fetches := s₂.fetches ++ [(q, start)] }, 0) :=
              processListings_frozen minB books
                { s₂ with fetches := s₂.fetches ++ [(q, start)] } 0 hlen₂ hcov
            rw [catLoop_step remote hOut minB q fuel start streak₂ s₂ hg₂ books hrem hb,
              hfrozen]
            have h02 : ((({ s₂ with fetches := s₂.fetches ++ [(q, start)] } : HState),
                (0 : Nat)).2 = 0) := rfl
            rw [if_pos h02]
            by_cases hstq₂ : 5 ≤ streak₂ + 1
            · rw [if_pos hstq₂]
              exact ⟨rfl, rfl, rfl⟩
            · rw [if_neg hstq₂]
              have hstq₁ : ¬ 5 ≤ streak₁ + 1 := by omega
              by_cases hp2 : (processListings minB books
                  { s₁ with fetches := s₁.fetches ++ [(q, start)] } 0).2 = 0
              · rw [if_pos hp2, if_neg hstq₁] at hRlen hRseen
                have hr := ih (start + 25) (streak₁ + 1) (streak₂ + 1)
                  (save100H hOut (processListings minB books
                    { s₁ with fetches := s₁.fetches ++ [(q, start)] } 0).1)
                  (save100H hOut ({ s₂ with fetches := s₂.fetches ++ [(q, start)] } : HState))
                  (by omega)
                  (by rw [save100H_buffer]; exact hlen₂)
                  (by rw [save100H_buffer]; exact hRlen)
                  (by intro t htm; rw [save100H_seen]; exact hRseen t htm)
                refine ⟨?_, ?_, ?_⟩
                · rw [hr.1, save100H_buffer]
                · rw [hr.2.1, save100H_seen]
                · rw [hr.2.2, save100H_admits]
              · rw [if_neg hp2] at hRlen hRseen
                have hr := ih (start + 25) 0 (streak₂ + 1)
                  (save100H hOut (processListings minB books
                    { s₁ with fetches := s₁.fetches ++ [(q, start)] } 0).1)
                  (save100H hOut ({ s₂ with fetches := s₂.fetches ++ [(q, start)] } : HState))
                  (by omega)
                  (by rw [save100H_buffer]; exact hlen₂)
                  (by rw [save100H_buffer]; exact hRlen)
                  (by intro t htm; rw [save100H_seen]; exact hRseen t htm)
                refine ⟨?_, ?_, ?_⟩
                · rw [hr.1, save100H_buffer]
                · rw [hr.2.1, save100H_seen]
                · rw [hr.2.2, save100H_admits]
      · exfalso
        rw [catLoop_stop remote hOut minB q fuel start streak₁ s₁
          (fun hc => hlen₁ hc.2)] at hRlen
        omega
    · rw [catLoop_stop remote hOut minB q fuel start streak₂ s₂ (fun hc => h10 hc.1)]
      exact ⟨rfl, rfl, rfl⟩

/-- `catLoop_replay` lifted over a whole category worklist. -/
theorem scrapeCats_replay (remote : String → Nat → Option (List HtmlItem))
    (hOut : Bool) (minB : Nat) :
    ∀ (cats : List String) (s₁ s₂ : HState),
      s₂.buffer.length < minB →
      (scrapeCats remote hOut minB cats s₁).buffer.length ≤ s₂.buffer.length →
      (∀ t, t ∈ (scrapeCats remote hOut minB cats s₁).seen → t ∈ s₂.seen) →
      (scrapeCats remote hOut minB cats s₂).buffer = s₂.buffer ∧
      (scrapeCats remote hOut minB cats s₂).seen = s₂.seen ∧
      (scrapeCats remote hOut minB cats s₂).admits = s₂.admits := by
  intro cats
  induction cats with
  | nil => intro s₁ s₂ _ _ _; exact ⟨rfl, rfl, rfl⟩
  | cons qq rest ih =>
    intro s₁ s₂ hlen₂ hRlen hRseen
    have hm₂ : ¬ minB ≤ s₂.buffer.length := by omega
    rw [scrapeCats, if_neg hm₂]
    by_cases hm₁ : minB ≤ s₁.buffer.length
    · exfalso
      rw [scrapeCats, if_pos hm₁] at hRlen
      omega
    · rw [scrapeCats, if_neg hm₁] at hRlen hRseen
      have hcl := catLoop_replay remote hOut minB qq 400 1 0 0 s₁ s₂ le_rfl hlen₂
        (le_trans (scrapeCats_len_mono remote hOut minB rest
          (catLoop remote hOut minB qq 400 1 0 s₁)) hRlen)
        (fun t ht => hRseen t (scrapeCats_seen_mono remote hOut minB rest
          (catLoop remote hOut minB qq 400 1 0 s₁) t ht))
      have hr := ih (catLoop remote hOut minB qq 400 1 0 s₁)
        (catLoop remote hOut minB qq 400 1 0 s₂)
        (by rw [hcl.1]; exact hlen₂)
        (by rw [hcl.1]; exact hRlen)
        (by intro t ht; rw [hcl.2.1]; exact hRseen t ht)
      refine ⟨?_, ?_, ?_⟩
      · rw [hr.1, hcl.1]
      · rw [hr.2.1, hcl.2.1]
      · rw [hr.2.2, hcl.2.2]

/-! ## The buffer / seen-set synchronization invariant -/

/-- The synchronization invariant between an accumulation buffer and a
seen-key set, for a given key extractor: every record's key is in the seen
set, every seen key is some record's key, no key occurs on two records, the
seen set has no duplicates, and the two have equal size. -/
def SyncInv {α : Type} (key : α → Option String) (buf : List α)
    (seen : List String) : Prop :=
  (∀ r ∈ buf, ∃ k ∈ seen, key r = some k) ∧
  (∀ k ∈ seen, ∃ r ∈ buf, key r = some k) ∧
  (buf.filterMap key).Nodup ∧
  seen.Nodup ∧
  buf.length = seen.length

/-- The invariant of the API driver state: keys are truthy ids. -/
def AInv (s : AState) : Prop :=
  SyncInv (fun r => truthyStr r.id) s.buffer s.seen

/-- The invariant of the scraper state: keys are truthy titles. -/
def HInv (s : HState) : Prop :=
  SyncInv (fun r => truthyStr r.title) s.buffer s.seen

theorem SyncInv.nil {α : Type} (key : α → Option String) : SyncInv key [] [] := by
  refine ⟨?_, ?_, ?_, ?_, rfl⟩ <;> simp

/-- Admitting a fresh key preserves the invariant. -/
theorem SyncInv.extend {α : Type} {key : α → Option String} {buf : List α}
    {seen : List String} (h : SyncInv key buf seen) (r : α) (k : String)
    (hk : key r = some k) (hs : k ∉ seen) :
    SyncInv key (buf ++ [r]) (k :: seen) := by
  obtain ⟨h1, h2, h3, h4, h5⟩ := h
  refine ⟨?_, ?_, ?_, ?_, ?_⟩
  · intro x hx
    rcases List.mem_append.1 hx with hxb | hxr
    · obtain ⟨k2, hk2, hkey⟩ := h1 x hxb
      exact ⟨k2, List.mem_cons_of_mem k hk2, hkey⟩
    · refine ⟨k, List.mem_cons_self k seen, ?_⟩
      rw [List.mem_singleton.1 hxr]
      exact hk
  · intro k2 hk2
    rcases List.mem_cons.1 hk2 with rfl | hk2s
    · exact ⟨r, by simp, hk⟩
    · obtain ⟨x, hxb, hkey⟩ := h2 k2 hk2s
      exact ⟨x, by simp [hxb], hkey⟩
  · rw [List.filterMap_append]
    have hsingle : [r].filterMap key = [k] := by simp [hk]
    rw [hsingle]
    refine List.Nodup.append h3 (List.nodup_singleton k) ?_
    intro a ha hal
    rw [List.mem_singleton.1 hal] at ha
    obtain ⟨x, hxb, hkey⟩ := List.mem_filterMap.1 ha
    obtain ⟨k2, hk2, hkey2⟩ := h1 x hxb
    rw [hkey] at hkey2
    have hkk : k = k2 := Option.some_inj.mp hkey2
    subst hkk
    exact hs hk2
  · exact List.nodup_cons.2 ⟨hs, h4⟩
  · simp [h5]

theorem admitBook_inv {s : AState} (i : ApiItem) (h : AInv s) :
    AInv (admitBook s i) := by
  cases hk : truthyStr (parse_book_data i).id with
  | none =>
    have heq : admitBook s i = s := by simp [admitBook, hk]
    rwa [heq]
  | some k =>
    by_cases hs : k ∈ s.seen
    · have heq : admitBook s i = s := by simp [admitBook, hk, hs]
      rwa [heq]
    · have heq : admitBook s i =
          { s with
            seen := k :: s.seen
            buffer := s.buffer ++ [parse_book_data i]
            admits := s.admits + 1 } := by
        simp [admitBook, hk, hs]
      rw [heq]
      exact SyncInv.extend h (parse_book_data i) k hk hs

theorem foldl_admitBook_inv (items : List ApiItem) :
    ∀ {s : AState}, AInv s → AInv (items.foldl admitBook s) := by
  induction items with
  | nil => intro s h; exact h
  | cons i rest ih => intro s h; exact ih (admitBook_inv i h)

theorem save100A_inv (h : Bool) {s : AState} (hi : AInv s) :
    AInv (save100A h s) := by
  unfold AInv at hi ⊢
  rwa [save100A_buffer, save100A_seen]

theorem saveQueryA_inv (h : Bool) {s : AState} (hi : AInv s) :
    AInv (saveQueryA h s) := by
  unfold AInv at hi ⊢
  unfold saveQueryA
  split <;> exact hi

theorem apiQueryLoop_inv (remote : String → Nat → Option ApiJson) (hOut : Bool)
    (maxB : Nat) (q : String) :
    ∀ (fuel start : Nat) {s : AState}, AInv s →
      AInv (apiQueryLoop remote hOut maxB q fuel start s) := by
  intro fuel
  induction fuel with
  | zero => intro start s h; exact h
  | succ fuel ih =>
    intro start s h
    have hf : AInv { s with fetches := s.fetches ++ [(q, start)] } := h
    by_cases hg : start < maxB
    · cases hrem : remote q start with
      | none => rw [apiQueryLoop_fail remote hOut maxB q fuel start s hg hrem]; exact hf
      | some j =>
        cases hit : j.items with
        | none =>
          rw [apiQueryLoop_noitems remote hOut maxB q fuel start s hg j hrem hit]
          exact hf
        | some items =>
          by_cases hlen : 0 < items.length
          · rw [apiQueryLoop_page remote hOut maxB q fuel start s hg j items hrem hit hlen]
            exact ih _ (save100A_inv hOut (foldl_admitBook_inv items hf))
          · rw [apiQueryLoop_emptypage remote hOut maxB q fuel start s hg j items
              hrem hit hlen]
            exact hf
    · rw [apiQueryLoop_stop remote hOut maxB q fuel start s hg]
      exact h

theorem collectBooksLoop_inv (remote : String → Nat → Option ApiJson) (hOut : Bool)
    (maxB : Nat) :
    ∀ (queries : List String) {s : AState}, AInv s →
      AInv (collectBooksLoop remote hOut maxB queries s) := by
  intro queries
  induction queries with
  | nil => intro s h; exact h
  | cons q rest ih =>
    intro s h
    exact ih (saveQueryA_inv hOut (apiQueryLoop_inv remote hOut maxB q 500 0 h))

theorem processListings_inv (minB : Nat) :
    ∀ (items : List HtmlItem) {s : HState} (c : Nat), HInv s →
      HInv (processListings minB items s c).1 := by
  intro items
  induction items with
  | nil => intro s c h; exact h
  | cons e rest ih =>
    intro s c h
    by_cases hm : minB ≤ s.buffer.length
    · rw [processListings, if_pos hm]; exact h
    · cases hp : parse_book_from_listing e with
      | none =>
        have heq : processListings minB (e :: rest) s c = processListings minB rest s c := by
          simp [processListings, hm, hp]
        rw [heq]; exact ih c h
      | some bd =>
        cases ht : truthyStr bd.title with
        | none =>
          have heq : processListings minB (e :: rest) s c =
              processListings minB rest s c := by
            simp [processListings, hm, hp, ht]
          rw [heq]; exact ih c h
        | some t =>
          by_cases hs : t ∈ s.seen
          · have heq : processListings minB (e :: rest) s c =
                processListings minB rest s c := by
              simp [processListings, hm, hp, ht, hs]
            rw [heq]; exact ih c h
          · have heq : processListings minB (e :: rest) s c =
                processListings minB rest
                  { s with
                    seen := t :: s.seen
                    buffer := s.buffer ++ [bd]
                    admits := s.admits + 1 } (c + 1) := by
              simp [processListings, hm, hp, ht, hs]
            rw [heq]
            exact ih (c + 1) (SyncInv.extend h bd t ht hs)

theorem save100H_inv (h : Bool) {s : HState} (hi : HInv s) : HInv (save100H h s) := by
  unfold HInv at hi ⊢
  rwa [save100H_buffer, save100H_seen]

theorem catLoop_inv (remote : String → Nat → Option (List HtmlItem)) (hOut : Bool)
    (minB : Nat) (q : String) :
    ∀ (fuel start streak : Nat) {s : HState}, HInv s →
      HInv (catLoop remote hOut minB q fuel start streak s) := by
  intro fuel
  induction fuel with
  | zero => intro start streak s h; exact h
  | succ fuel ih =>
    intro start streak s h
    have hf : HInv { s with fetches := s.fetches ++ [(q, start)] } := h
    by_cases hg : start < 10000 ∧ s.buffer.length < minB
    · cases hrem : remote q start with
      | none => rw [catLoop_fail remote hOut minB q fuel start streak s hg hrem]; exact hf
      | some books =>
        by_cases hb : books.length = 0
        · rw [catLoop_nobooks remote hOut minB q fuel start streak s hg books hrem hb]
          exact hf
        · rw [catLoop_step remote hOut minB q fuel start streak s hg books hrem hb]
          have hpinv := processListings_inv minB books
            (s := { s with fetches := s.fetches ++ [(q, start)] }) 0 hf
          by_cases hp2 : (processListings minB books
              { s with fetches := s.fetches ++ [(q, start)] } 0).2 = 0
          · by_cases hstreak : 5 ≤ streak + 1
            · rw [if_pos hp2, if_pos hstreak]; exact hpinv
            · rw [if_pos hp2, if_neg hstreak]
              exact ih _ _ (save100H_inv hOut hpinv)
          · rw [if_neg hp2]
            exact ih _ _ (save100H_inv hOut hpinv)
    · rw [catLoop_stop remote hOut minB q fuel start streak s hg]; exact h

theorem scrapeCats_inv (remote : String → Nat → Option (List HtmlItem)) (hOut : Bool)
    (minB : Nat) :
    ∀ (cats : List String) {s : HState}, HInv s →
      HInv (scrapeCats remote hOut minB cats s) := by
  intro cats
  induction cats with
  | nil => intro s h; exact h
  | cons q rest ih =>
    intro s h
    by_cases hm : minB ≤ s.buffer.length
    · rw [scrapeCats, if_pos hm]; exact h
    · rw [scrapeCats, if_neg hm]
      exact ih (catLoop_inv remote hOut minB q 400 1 0 h)

/-! ## Seeding the invariant from a checkpoint -/

theorem truthyStr_eq_of_isSome {o : Option String}
    (h : (truthyStr o).isSome = true) : truthyStr o = o := by
  cases o with
  | none => simp [truthyStr] at h
  | some s =>
    by_cases hs : s = "" <;> simp [truthyStr, hs] at h ⊢

theorem length_filterMap_of_isSome {α β : Type} (f : α → Option β) :
    ∀ (l : List α), (∀ x ∈ l, (f x).isSome = true) →
      (l.filterMap f).length = l.length := by
  intro l
  induction l with
  | nil => intro _; rfl
  | cons x rest ih =>
    intro h
    have hx := h x (by simp)
    cases hfx : f x with
    | none => rw [hfx] at hx; simp at hx
    | some b =>
      rw [List.filterMap_cons, hfx]
      simp [ih (fun y hy => h y (by simp [hy]))]

/-- Rows with present, pairwise-distinct keys stand in the synchronization
invariant with their own key list. -/
theorem SyncInv_of_rows {α : Type} (key : α → Option String) (rows : List α)
    (hsome : ∀ r ∈ rows, (key r).isSome = true)
    (hnd : (rows.filterMap key).Nodup) :
    SyncInv key rows (rows.filterMap key) := by
  refine ⟨?_, ?_, hnd, hnd, ?_⟩
  · intro r hr
    obtain ⟨k, hk⟩ := Option.isSome_iff_exists.1 (hsome r hr)
    exact ⟨k, List.mem_filterMap.2 ⟨r, hr, hk⟩, hk⟩
  · intro k hk
    obtain ⟨r, hr, hkey⟩ := List.mem_filterMap.1 hk
    exact ⟨r, hr, hkey⟩
  · exact (length_filterMap_of_isSome key rows hsome).symm

/-- A well-formed API checkpoint: every row has a truthy id and no id occurs
twice.  Missing and unreadable files are always well-formed (they seed
nothing). -/
def ASeedOK : ACheckpoint → Prop
  | .missing => True
  | .unreadable => True
  | .table _ rows =>
    (∀ r ∈ rows, (truthyStr r.id).isSome = true) ∧
    (rows.filterMap (fun r => truthyStr r.id)).Nodup

/-- A well-formed scraper checkpoint: every row has a truthy title and no
title occurs twice. -/
def HSeedOK : HCheckpoint → Prop
  | .missing => True
  | .unreadable => True
  | .table _ rows =>
    (∀ r ∈ rows, (truthyStr r.title).isSome = true) ∧
    (rows.filterMap (fun r => truthyStr r.title)).Nodup

theorem loadA_inv (cp : ACheckpoint) (h : ASeedOK cp) : AInv (loadA cp).1 := by
  cases cp with
  | missing => exact SyncInv.nil _
  | unreadable => exact SyncInv.nil _
  | table cols rows =>
    obtain ⟨hsome, hnd⟩ := h
    by_cases hcol : "id" ∈ cols
    · have hfm : rows.filterMap ARecord.id =
          rows.filterMap (fun r => truthyStr r.id) :=
        (List.filterMap_congr fun r hr =>
          (truthyStr_eq_of_isSome (hsome r hr)).symm)
      have hseen : (loadA (.table cols rows)).1.seen =
          rows.filterMap (fun r => truthyStr r.id) := by
        rw [loadA]
        simp only [if_pos hcol, hfm]
        exact List.dedup_eq_self.2 hnd
      have hbuf : (loadA (.table cols rows)).1.buffer = rows := by
        rw [loadA]; simp [if_pos hcol]
      unfold AInv
      rw [hseen, hbuf]
      exact SyncInv_of_rows _ rows hsome hnd
    · have : (loadA (.table cols rows)).1 = emptyA := by
        rw [loadA]; simp [hcol]
      rw [this]
      exact SyncInv.nil _

theorem loadH_inv (cp : HCheckpoint) (h : HSeedOK cp) : HInv (loadH cp).1 := by
  cases cp with
  | missing => exact SyncInv.nil _
  | unreadable => exact SyncInv.nil _
  | table cols rows =>
    obtain ⟨hsome, hnd⟩ := h
    have hseen : (loadH (.table cols rows)).1.seen =
        rows.filterMap (fun r => truthyStr r.title) := by
      rw [loadH]
      exact List.dedup_eq_self.2 hnd
    have hbuf : (loadH (.table cols rows)).1.buffer = rows := rfl
    unfold HInv
    rw [hseen, hbuf]
    exact SyncInv_of_rows _ rows hsome hnd

/-! ## Coverage and replay for the API driver -/

theorem admitBook_seen_mono (s : AState) (i : ApiItem) (x : String)
    (hx : x ∈ s.seen) : x ∈ (admitBook s i).seen := by
  cases hk : truthyStr (parse_book_data i).id with
  | none => simpa [admitBook, hk] using hx
  | some k =>
    by_cases hs : k ∈ s.seen <;> simp [admitBook, hk, hs, hx]

theorem foldl_admitBook_seen_mono (items : List ApiItem) :
    ∀ (s : AState) (x : String), x ∈ s.seen → x ∈ (items.foldl admitBook s).seen := by
  induction items with
  | nil => intro s x hx; exact hx
  | cons i rest ih => intro s x hx; exact ih _ x (admitBook_seen_mono s i x hx)

theorem admitBook_buffer (s : AState) (i : ApiItem) :
    ∃ t, (admitBook s i).buffer = s.buffer ++ t := by
  cases hk : truthyStr (parse_book_data i).id with
  | none => exact ⟨[], by simp [admitBook, hk]⟩
  | some k =>
    by_cases hs : k ∈ s.seen
    · exact ⟨[], by simp [admitBook, hk, hs]⟩
    · exact ⟨[parse_book_data i], by simp [admitBook, hk, hs]⟩

theorem foldl_admitBook_buffer (items : List ApiItem) :
    ∀ (s : AState), ∃ t, (items.foldl admitBook s).buffer = s.buffer ++ t := by
  induction items with
  | nil => intro s; exact ⟨[], by simp⟩
  | cons i rest ih =>
    intro s
    obtain ⟨u, hu⟩ := admitBook_buffer s i
    obtain ⟨v, hv⟩ := ih (admitBook s i)
    exact ⟨u ++ v, by rw [List.foldl_cons, hv, hu, List.append_assoc]⟩

theorem apiQueryLoop_seen_mono (remote : String → Nat → Option ApiJson)
    (hOut : Bool) (maxB : Nat) (q : String) :
    ∀ (fuel start : Nat) (s : AState) (x : String),
      x ∈ s.seen → x ∈ (apiQueryLoop remote hOut maxB q fuel start s).seen := by
  intro fuel
  induction fuel with
  | zero => intro start s x hx; exact hx
  | succ fuel ih =>
    intro start s x hx
    by_cases hg : start < maxB
    · cases hrem : remote q start with
      | none => rw [apiQueryLoop_fail remote hOut maxB q fuel start s hg hrem]; exact hx
      | some j =>
        cases hit : j.items with
        | none =>
          rw [apiQueryLoop_noitems remote hOut maxB q fuel start s hg j hrem hit]
          exact hx
        | some items =>
          by_cases hlen : 0 < items.length
          · rw [apiQueryLoop_page remote hOut maxB q fuel start s hg j items hrem hit hlen]
            refine ih _ _ x ?_
            rw [save100A_seen]
            exact foldl_admitBook_seen_mono items _ x hx
          · rw [apiQueryLoop_emptypage remote hOut maxB q fuel start s hg j items
              hrem hit hlen]
            exact hx
    · rw [apiQueryLoop_stop remote hOut maxB q fuel start s hg]; exact hx

theorem apiQueryLoop_buffer (remote : String → Nat → Option ApiJson)
    (hOut : Bool) (maxB : Nat) (q : String) :
    ∀ (fuel start : Nat) (s : AState),
      ∃ t, (apiQueryLoop remote hOut maxB q fuel start s).buffer = s.buffer ++ t := by
  intro fuel
  induction fuel with
  | zero => intro start s; exact ⟨[], by simp [apiQueryLoop_zero]⟩
  | succ fuel ih =>
    intro start s
    by_cases hg : start < maxB
    · cases hrem : remote q start with
      | none =>
        exact ⟨[], by rw [apiQueryLoop_fail remote hOut maxB q fuel start s hg hrem]; simp⟩
      | some j =>
        cases hit : j.items with
        | none =>
          exact ⟨[], by
            rw [apiQueryLoop_noitems remote hOut maxB q fuel start s hg j hrem hit]; simp⟩
        | some items =>
          by_cases hlen : 0 < items.length
          · rw [apiQueryLoop_page remote hOut maxB q fuel start s hg j items hrem hit hlen]
            obtain ⟨u, hu⟩ := foldl_admitBook_buffer items
              { s with fetches := s.fetches ++ [(q, start)] }
            obtain ⟨v, hv⟩ := ih (start + items.length)
              (save100A hOut (items.foldl admitBook
                { s with fetches := s.fetches ++ [(q, start)] }))
            refine ⟨u ++ v, ?_⟩
            rw [hv, save100A_buffer, hu]
            simp [List.append_assoc]
          · exact ⟨[], by
              rw [apiQueryLoop_emptypage remote hOut maxB q fuel start s hg j items
                hrem hit hlen]; simp⟩
    · exact ⟨[], by rw [apiQueryLoop_stop remote hOut maxB q fuel start s hg]; simp⟩

/-- One step of the query worklist fold: run the per-query loop, then the
post-query persistence step. -/
theorem collectBooksLoop_cons (remote : String → Nat → Option ApiJson)
    (hOut : Bool) (maxB : Nat) (q : String) (rest : List String) (s : AState) :
    collectBooksLoop remote hOut maxB (q :: rest) s =
      collectBooksLoop remote hOut maxB rest
        (saveQueryA hOut (apiQueryLoop remote hOut maxB q 500 0 s)) := rfl

theorem saveQueryA_buffer (h : Bool) (s : AState) :
    (saveQueryA h s).buffer = s.buffer := by
  unfold saveQueryA; split <;> rfl

theorem saveQueryA_seen (h : Bool) (s : AState) :
    (saveQueryA h s).seen = s.seen := by
  unfold saveQueryA; split <;> rfl

theorem saveQueryA_admits (h : Bool) (s : AState) :
    (saveQueryA h s).admits = s.admits := by
  unfold saveQueryA; split <;> rfl

theorem saveQueryA_saves_mem (h : Bool) (s : AState) :
    ∀ b ∈ (saveQueryA h s).saves, b ∈ s.saves ∨ (b = s.buffer ∧ 0 < s.buffer.length) := by
  intro b hb
  unfold saveQueryA at hb
  split at hb
  case isTrue hc =>
    rcases List.mem_append.1 hb with h1 | h2
    · exact Or.inl h1
    · right
      simp at h2
      exact ⟨h2, hc.2⟩
  case isFalse => exact Or.inl hb

theorem collectBooksLoop_seen_mono (remote : String → Nat → Option ApiJson)
    (hOut : Bool) (maxB : Nat) :
    ∀ (queries : List String) (s : AState) (x : String),
      x ∈ s.seen → x ∈ (collectBooksLoop remote hOut maxB queries s).seen := by
  intro queries
  induction queries with
  | nil => intro s x hx; exact hx
  | cons q rest ih =>
    intro s x hx
    rw [collectBooksLoop_cons]
    refine ih _ x ?_
    rw [saveQueryA_seen]
    exact apiQueryLoop_seen_mono remote hOut maxB q 500 0 s x hx

theorem admitBook_covers (s : AState) (i : ApiItem) (k : String)
    (hk : truthyStr (parse_book_data i).id = some k) :
    k ∈ (admitBook s i).seen := by
  by_cases hs : k ∈ s.seen <;> simp [admitBook, hk, hs]

theorem foldl_admitBook_covers (items : List ApiItem) :
    ∀ (s : AState), ∀ i ∈ items, ∀ k,
      truthyStr (parse_book_data i).id = some k →
      k ∈ (items.foldl admitBook s).seen := by
  induction items with
  | nil => intro s i hi; exact absurd hi (List.not_mem_nil i)
  | cons j rest ih =>
    intro s i hi k hk
    rcases List.mem_cons.1 hi with rfl | hir
    · rw [List.foldl_cons]
      exact foldl_admitBook_seen_mono rest _ k (admitBook_covers s i k hk)
    · rw [List.foldl_cons]
      exact ih _ i hir k hk

/-- After one per-query loop, the seen set contains the key of every item of
every page in the loop's fetch schedule. -/
theorem apiQueryLoop_covers (remote : String → Nat → Option ApiJson)
    (hOut : Bool) (maxB : Nat) (q : String) :
    ∀ (fuel start : Nat) (s : AState),
      ∀ o ∈ apiOffsets remote q maxB fuel start,
        ∀ i ∈ apiPageItems remote q o, ∀ k,
          truthyStr (parse_book_data i).id = some k →
          k ∈ (apiQueryLoop remote hOut maxB q fuel start s).seen := by
  intro fuel
  induction fuel with
  | zero => intro start s o ho; simp [apiOffsets] at ho
  | succ fuel ih =>
    intro start s o ho i hi k hk
    by_cases hg : start < maxB
    · cases hrem : remote q start with
      | none =>
        rw [apiOffsets] at ho
        simp [hg, hrem] at ho
        subst ho
        rw [apiPageItems, hrem] at hi
        exact absurd hi (List.not_mem_nil i)
      | some j =>
        cases hit : j.items with
        | none =>
          rw [apiOffsets] at ho
          simp [hg, hrem, hit] at ho
          subst ho
          rw [apiPageItems, hrem] at hi
          simp [hit] at hi
        | some items =>
          by_cases hlen : 0 < items.length
          · have hne : ¬ items.length = 0 := by omega
            rw [apiOffsets] at ho
            simp only [if_pos hg, hrem, hit, if_pos hlen, if_neg hne] at ho
            rw [apiQueryLoop_page remote hOut maxB q fuel start s hg j items hrem hit hlen]
            rcases List.mem_cons.1 ho with rfl | hor
            · -- the fetched page itself
              rw [apiPageItems, hrem] at hi
              simp only [hit] at hi
              refine apiQueryLoop_seen_mono remote hOut maxB q fuel _ _ k ?_
              rw [save100A_seen]
              exact foldl_admitBook_covers items _ i hi k hk
            · exact ih _ _ o hor i hi k hk
          · rw [apiOffsets] at ho
            simp [hg, hrem, hit, hlen] at ho
            subst ho
            have hnil : items = [] := by
              cases items with
              | nil => rfl
              | cons a as => exact absurd (by simp : 0 < (a :: as).length) hlen
            subst hnil
            rw [apiPageItems, hrem] at hi
            simp [hit] at hi
    · rw [apiOffsets] at ho
      simp [hg] at ho

theorem admitBook_frozen (s : AState) (i : ApiItem)
    (h : ∀ k, truthyStr (parse_book_data i).id = some k → k ∈ s.seen) :
    admitBook s i = s := by
  cases hk : truthyStr (parse_book_data i).id with
  | none => simp [admitBook, hk]
  | some k => simp [admitBook, hk, h k hk]

theorem foldl_admitBook_frozen (items : List ApiItem) :
    ∀ (s : AState),
      (∀ i ∈ items, ∀ k, truthyStr (parse_book_data i).id = some k → k ∈ s.seen) →
      items.foldl admitBook s = s := by
  induction items with
  | nil => intro s _; rfl
  | cons i rest ih =>
    intro s h
    rw [List.foldl_cons, admitBook_frozen s i (fun k hk => h i (by simp) k hk)]
    exact ih s (fun j hj k hk => h j (by simp [hj]) k hk)

/-- A per-query loop whose whole fetch schedule carries only already-seen keys
leaves buffer, seen set and admission count untouched. -/
theorem apiQueryLoop_frozen (remote : String → Nat → Option ApiJson)
    (hOut : Bool) (maxB : Nat) (q : String) :
    ∀ (fuel start : Nat) (s : AState),
      (∀ o ∈ apiOffsets remote q maxB fuel start,
        ∀ i ∈ apiPageItems remote q o, ∀ k,
          truthyStr (parse_book_data i).id = some k → k ∈ s.seen) →
      (apiQueryLoop remote hOut maxB q fuel start s).buffer = s.buffer ∧
      (apiQueryLoop remote hOut maxB q fuel start s).seen = s.seen ∧
      (apiQueryLoop remote hOut maxB q fuel start s).admits = s.admits := by
  intro fuel
  induction fuel with
  | zero => intro start s _; exact ⟨rfl, rfl, rfl⟩
  | succ fuel ih =>
    intro start s hcov
    by_cases hg : start < maxB
    · cases hrem : remote q start with
      | none =>
        rw [apiQueryLoop_fail remote hOut maxB q fuel start s hg hrem]
        exact ⟨rfl, rfl, rfl⟩
      | some j =>
        cases hit : j.items with
        | none =>
          rw [apiQueryLoop_noitems remote hOut maxB q fuel start s hg j hrem hit]
          exact ⟨rfl, rfl, rfl⟩
        | some items =>
          by_cases hlen : 0 < items.length
          · have hne : ¬ items.length = 0 := by omega
            have hoffs : apiOffsets remote q maxB (fuel + 1) start =
                start :: apiOffsets remote q maxB fuel (start + items.length) := by
              simp [apiOffsets, hg, hrem, hit, hlen, hne]
            have hpage : apiPageItems remote q start = items := by
              simp [apiPageItems, hrem, hit]
            have hfold : items.foldl admitBook
                { s with fetches := s.fetches ++ [(q, start)] } =
                { s with fetches := s.fetches ++ [(q, start)] } := by
              refine foldl_admitBook_frozen items _ ?_
              intro i hi k hk
              refine hcov start (by rw [hoffs]; simp) i ?_ k hk
              rw [hpage]; exact hi
            rw [apiQueryLoop_page remote hOut maxB q fuel start s hg j items hrem hit hlen,
              hfold]
            have hrec := ih (start + items.length)
              (save100A hOut { s with fetches := s.fetches ++ [(q, start)] })
              (by
                intro o ho i hi k hk
                rw [save100A_seen]
                exact hcov o (by rw [hoffs]; simp [ho]) i hi k hk)
            refine ⟨?_, ?_, ?_⟩
            · rw [hrec.1, save100A_buffer]
            · rw [hrec.2.1, save100A_seen]
            · rw [hrec.2.2, save100A_admits]
          · rw [apiQueryLoop_emptypage remote hOut maxB q fuel start s hg j items
              hrem hit hlen]
            exact ⟨rfl, rfl, rfl⟩
    · rw [apiQueryLoop_stop remote hOut maxB q fuel start s hg]
      exact ⟨rfl, rfl, rfl⟩

theorem collectBooksLoop_buffer (remote : String → Nat → Option ApiJson)
    (hOut : Bool) (maxB : Nat) :
    ∀ (queries : List String) (s : AState),
      ∃ t, (collectBooksLoop remote hOut maxB queries s).buffer = s.buffer ++ t := by
  intro queries
  induction queries with
  | nil => intro s; exact ⟨[], by simp [collectBooksLoop]⟩
  | cons q rest ih =>
    intro s
    rw [collectBooksLoop_cons]
    obtain ⟨u, hu⟩ := apiQueryLoop_buffer remote hOut maxB q 500 0 s
    obtain ⟨v, hv⟩ := ih (saveQueryA hOut (apiQueryLoop remote hOut maxB q 500 0 s))
    exact ⟨u ++ v, by rw [hv, saveQueryA_buffer, hu, List.append_assoc]⟩

/-- After a whole run of the query worklist, the seen set contains the key of
every item of every page in the run's fetch schedule. -/
theorem collectBooksLoop_covers (remote : String → Nat → Option ApiJson)
    (hOut : Bool) (maxB : Nat) :
    ∀ (queries : List String) (s : AState), ∀ q ∈ queries,
      ∀ o ∈ apiOffsets remote q maxB 500 0,
        ∀ i ∈ apiPageItems remote q o, ∀ k,
          truthyStr (parse_book_data i).id = some k →
          k ∈ (collectBooksLoop remote hOut maxB queries s).seen := by
  intro queries
  induction queries with
  | nil => intro s q hq; exact absurd hq (List.not_mem_nil q)
  | cons q0 rest ih =>
    intro s q hq o ho i hi k hk
    rw [collectBooksLoop_cons]
    rcases List.mem_cons.1 hq with rfl | hqr
    · refine collectBooksLoop_seen_mono remote hOut maxB rest _ k ?_
      rw [saveQueryA_seen]
      exact apiQueryLoop_covers remote hOut maxB q 500 0 s o ho i hi k hk
    · exact ih _ q hqr o ho i hi k hk

/-- A whole query worklist whose fetch schedules carry only already-seen keys
leaves buffer, seen set and admission count untouched. -/
theorem collectBooksLoop_frozen (remote : String → Nat → Option ApiJson)
    (hOut : Bool) (maxB : Nat) :
    ∀ (queries : List String) (s : AState),
      (∀ q ∈ queries, ∀ o ∈ apiOffsets remote q maxB 500 0,
        ∀ i ∈ apiPageItems remote q o, ∀ k,
          truthyStr (parse_book_data i).id = some k → k ∈ s.seen) →
      (collectBooksLoop remote hOut maxB queries s).buffer = s.buffer ∧
      (collectBooksLoop remote hOut maxB queries s).seen = s.seen ∧
      (collectBooksLoop remote hOut maxB queries s).admits = s.admits := by
  intro queries
  induction queries with
  | nil => intro s _; exact ⟨rfl, rfl, rfl⟩
  | cons q rest ih =>
    intro s hcov
    rw [collectBooksLoop_cons]
    have hq := apiQueryLoop_frozen remote hOut maxB q 500 0 s
      (fun o ho i hi k hk => hcov q (by simp) o ho i hi k hk)
    have hrec := ih (saveQueryA hOut (apiQueryLoop remote hOut maxB q 500 0 s))
      (by
        intro qq hqq o ho i hi k hk
        rw [saveQueryA_seen, hq.2.1]
        exact hcov qq (by simp [hqq]) o ho i hi k hk)
    refine ⟨?_, ?_, ?_⟩
    · rw [hrec.1, saveQueryA_buffer, hq.1]
    · rw [hrec.2.1, saveQueryA_seen, hq.2.1]
    · rw [hrec.2.2, saveQueryA_admits, hq.2.2]

theorem save100A_saves_mem (h : Bool) (s : AState) :
    ∀ b ∈ (save100A h s).saves,
      b ∈ s.saves ∨ (b = s.buffer ∧ 0 < s.buffer.length ∧ s.buffer.length % 100 = 0) := by
  intro b hb
  unfold save100A at hb
  split at hb
  case isTrue hc =>
    rcases List.mem_append.1 hb with h1 | h2
    · exact Or.inl h1
    · right
      simp at h2
      exact ⟨h2, hc.2.1, hc.2.2⟩
  case isFalse => exact Or.inl hb

/-- Every snapshot persisted inside a per-query loop either predates the loop
or is a wholesale snapshot of the buffer at a moment when its length was a
positive multiple of 100 (and the final buffer extends it). -/
theorem apiQueryLoop_saves_mem (remote : String → Nat → Option ApiJson)
    (hOut : Bool) (maxB : Nat) (q : String) :
    ∀ (fuel start : Nat) (s : AState),
      ∀ b ∈ (apiQueryLoop remote hOut maxB q fuel start s).saves,
        b ∈ s.saves ∨ (0 < b.length ∧ b.length % 100 = 0 ∧
          ∃ t, (apiQueryLoop remote hOut maxB q fuel start s).buffer = b ++ t) := by
  intro fuel
  induction fuel with
  | zero => intro start s b hb; exact Or.inl hb
  | succ fuel ih =>
    intro start s b hb
    by_cases hg : start < maxB
    · cases hrem : remote q start with
      | none =>
        rw [apiQueryLoop_fail remote hOut maxB q fuel start s hg hrem] at hb
        exact Or.inl hb
      | some j =>
        cases hit : j.items with
        | none =>
          rw [apiQueryLoop_noitems remote hOut maxB q fuel start s hg j hrem hit] at hb
          exact Or.inl hb
        | some items =>
          by_cases hlen : 0 < items.length
          · rw [apiQueryLoop_page remote hOut maxB q fuel start s hg j items
              hrem hit hlen] at hb ⊢
            have hfsave : (items.foldl admitBook
                { s with fetches := s.fetches ++ [(q, start)] }).saves = s.saves := by
              have hgen : ∀ (l : List ApiItem) (s0 : AState),
                  (l.foldl admitBook s0).saves = s0.saves := by
                intro l
                induction l with
                | nil => intro s0; rfl
                | cons a as iha => intro s0; rw [List.foldl_cons, iha, admitBook_saves]
              exact hgen items _
            rcases ih (start + items.length) _ b hb with hin | hnew
            · rcases save100A_saves_mem hOut _ b hin with hin2 | ⟨hbeq, hpos, hmod⟩
              · rw [hfsave] at hin2
                exact Or.inl hin2
              · refine Or.inr ⟨by rw [hbeq]; exact hpos, by rw [hbeq]; exact hmod, ?_⟩
                obtain ⟨t, ht⟩ := apiQueryLoop_buffer remote hOut maxB q fuel
                  (start + items.length) (save100A hOut (items.foldl admitBook
                    { s with fetches := s.fetches ++ [(q, start)] }))
                rw [ht, save100A_buffer, ← hbeq]
                exact ⟨t, rfl⟩
            · exact Or.inr hnew
          · rw [apiQueryLoop_emptypage remote hOut maxB q fuel start s hg j items
              hrem hit hlen] at hb
            exact Or.inl hb
    · rw [apiQueryLoop_stop remote hOut maxB q fuel start s hg] at hb
      exact Or.inl hb

/-- Every snapshot persisted by the query worklist loop either predates it or
is a wholesale snapshot: non-empty and extended by the final buffer. -/
theorem collectBooksLoop_saves_mem (remote : String → Nat → Option ApiJson)
    (hOut : Bool) (maxB : Nat) :
    ∀ (queries : List String) (s : AState),
      ∀ b ∈ (collectBooksLoop remote hOut maxB queries s).saves,
        b ∈ s.saves ∨ (0 < b.length ∧
          ∃ t, (collectBooksLoop remote hOut maxB queries s).buffer = b ++ t) := by
  intro queries
  induction queries with
  | nil => intro s b hb; exact Or.inl hb
  | cons q rest ih =>
    intro s b hb
    rw [collectBooksLoop_cons] at hb ⊢
    obtain ⟨w, hw⟩ := collectBooksLoop_buffer remote hOut maxB rest
      (saveQueryA hOut (apiQueryLoop remote hOut maxB q 500 0 s))
    rcases ih _ b hb with hin | hnew
    · rcases saveQueryA_saves_mem hOut _ b hin with hin2 | ⟨hbeq, hpos⟩
      · rcases apiQueryLoop_saves_mem remote hOut maxB q 500 0 s b hin2 with
          hin3 | ⟨hpos, hmod, t, ht⟩
        · exact Or.inl hin3
        · refine Or.inr ⟨hpos, ?_⟩
          refine ⟨t ++ w, ?_⟩
          rw [hw, saveQueryA_buffer, ht, List.append_assoc]
      · refine Or.inr ⟨by rw [hbeq]; exact hpos, ?_⟩
        refine ⟨w, ?_⟩
        rw [hw, saveQueryA_buffer, hbeq]
    · exact Or.inr hnew

/-! ## Lemmas about the fetchers -/

/-- A response that is not a parsed 200 body: every such response makes the
fetchers take an error path. -/
def ApiResponse.isErr : ApiResponse → Bool
  | .ok _ => false
  | _ => true

def HtmlResponse.isErr : HtmlResponse → Bool
  | .ok _ => false
  | _ => true

theorem range_map_pow_shift (rc n : Nat) :
    (2 ^ rc * 60) :: (List.range n).map (fun j => 2 ^ (rc + 1 + j) * 60) =
      (List.range (n + 1)).map (fun j => 2 ^ (rc + j) * 60) := by
  rw [List.range_succ_eq_map, List.map_cons, List.map_map]
  refine congrArg₂ List.cons (by simp) ?_
  refine List.map_congr_left ?_
  intro a _
  simp only [Function.comp_apply]
  have h : rc + 1 + a = rc + (a + 1) := by omega
  rw [h]

theorem getBooksAux_ok (remote : Nat → Bool → ApiResponse) (key : Bool)
    (m fuel rc idx : Nat) (body : ApiJson) (hr : remote idx key = .ok body) :
    getBooksAux remote key m (fuel + 1) rc idx = ⟨some body, [], [(idx, key)]⟩ := by
  rw [getBooksAux]
  simp [hr]

theorem getBooksAux_okMalformed (remote : Nat → Bool → ApiResponse) (key : Bool)
    (m fuel rc idx : Nat) (hr : remote idx key = .okMalformed) :
    getBooksAux remote key m (fuel + 1) rc idx = ⟨none, [], [(idx, key)]⟩ := by
  rw [getBooksAux]
  simp [hr]

theorem getBooksAux_transportErr (remote : Nat → Bool → ApiResponse) (key : Bool)
    (m fuel rc idx : Nat) (hr : remote idx key = .transportErr) :
    getBooksAux remote key m (fuel + 1) rc idx = ⟨none, [], [(idx, key)]⟩ := by
  rw [getBooksAux]
  simp [hr]

theorem getBooksAux_429_retry (remote : Nat → Bool → ApiResponse) (key : Bool)
    (m fuel rc idx : Nat) (hr : remote idx key = .httpErr 429) (hrc : rc < m) :
    getBooksAux remote key m (fuel + 1) rc idx =
      ⟨(getBooksAux remote key m fuel (rc + 1) (idx + 1)).result,
       2 ^ rc * 60 :: (getBooksAux remote key m fuel (rc + 1) (idx + 1)).waits,
       (idx, key) :: (getBooksAux remote key m fuel (rc + 1) (idx + 1)).calls⟩ := by
  rw [getBooksAux]
  simp [hr, hrc]

theorem getBooksAux_429_stop (remote : Nat → Bool → ApiResponse) (key : Bool)
    (m fuel rc idx : Nat) (hr : remote idx key = .httpErr 429) (hrc : ¬ rc < m) :
    getBooksAux remote key m (fuel + 1) rc idx = ⟨none, [], [(idx, key)]⟩ := by
  rw [getBooksAux]
  simp [hr, hrc]

theorem getBooksAux_403 (remote : Nat → Bool → ApiResponse)
    (m fuel rc idx : Nat) (hr : remote idx true = .httpErr 403) :
    getBooksAux remote true m (fuel + 1) rc idx =
      (match remote (idx + 1) false with
       | .ok b => ⟨some b, [], [(idx, true), (idx + 1, false)]⟩
       | _ => ⟨none, [], [(idx, true), (idx + 1, false)]⟩) := by
  rw [getBooksAux]
  simp [hr]

theorem getBooksAux_errOther (remote : Nat → Bool → ApiResponse) (key : Bool)
    (m fuel rc idx status : Nat) (hr : remote idx key = .httpErr status)
    (h429 : ¬ status = 429) (h403 : ¬ (key = true ∧ status = 403)) :
    getBooksAux remote key m (fuel + 1) rc idx = ⟨none, [], [(idx, key)]⟩ := by
  rw [getBooksAux]
  simp [hr, h429, h403]

/-- Exhaustive 429s: the fetcher sleeps `2 ^ retryCount * 60` before each of
its `maxRetries` retries and then returns failure. -/
theorem getBooksAux_429 (key : Bool) (m : Nat) :
    ∀ (fuel rc idx : Nat), m - rc < fuel →
      (getBooksAux (fun _ _ => ApiResponse.httpErr 429) key m fuel rc idx).result
          = none ∧
      (getBooksAux (fun _ _ => ApiResponse.httpErr 429) key m fuel rc idx).waits
          = (List.range (m - rc)).map (fun n => 2 ^ (rc + n) * 60) := by
  intro fuel
  induction fuel with
  | zero => intro rc idx h; omega
  | succ fuel ih =>
    intro rc idx h
    by_cases hrc : rc < m
    · have hlt : m - (rc + 1) < fuel := by omega
      obtain ⟨ihr, ihw⟩ := ih (rc + 1) (idx + 1) hlt
      have hm : m - rc = (m - (rc + 1)) + 1 := by omega
      rw [getBooksAux_429_retry (fun _ _ => ApiResponse.httpErr 429) key m fuel rc idx
        rfl hrc]
      refine ⟨ihr, ?_⟩
      show 2 ^ rc * 60 :: (getBooksAux (fun _ _ => ApiResponse.httpErr 429)
        key m fuel (rc + 1) (idx + 1)).waits = _
      rw [ihw, hm, ← range_map_pow_shift]
    · rw [getBooksAux_429_stop (fun _ _ => ApiResponse.httpErr 429) key m fuel rc idx
        rfl hrc]
      have hm : m - rc = 0 := by omega
      rw [hm]
      exact ⟨rfl, rfl⟩

/-- Every error response makes `get_books_by_query` return failure, never a
value obtained from an error and never an exception (the function is total by
construction). -/
theorem getBooksAux_err (remote : Nat → Bool → ApiResponse) (key : Bool) (m : Nat)
    (herr : ∀ n k, (remote n k).isErr = true) :
    ∀ (fuel rc idx : Nat), (getBooksAux remote key m fuel rc idx).result = none := by
  intro fuel
  induction fuel with
  | zero => intro rc idx; rfl
  | succ fuel ih =>
    intro rc idx
    cases hr : remote idx key with
    | ok body => exact absurd (herr idx key) (by rw [hr]; simp [ApiResponse.isErr])
    | okMalformed => rw [getBooksAux_okMalformed remote key m fuel rc idx hr]
    | transportErr => rw [getBooksAux_transportErr remote key m fuel rc idx hr]
    | httpErr status =>
      by_cases h429 : status = 429
      · subst h429
        by_cases hrc : rc < m
        · rw [getBooksAux_429_retry remote key m fuel rc idx hr hrc]
          exact ih (rc + 1) (idx + 1)
        · rw [getBooksAux_429_stop remote key m fuel rc idx hr hrc]
      · by_cases h403 : key = true ∧ status = 403
        · obtain ⟨hkey, hst⟩ := h403
          subst hkey
          subst hst
          rw [getBooksAux_403 remote m fuel rc idx hr]
          cases hr2 : remote (idx + 1) false with
          | ok body =>
            exact absurd (herr (idx + 1) false) (by rw [hr2]; simp [ApiResponse.isErr])
          | okMalformed => simp [hr2]
          | transportErr => simp [hr2]
          | httpErr st2 => simp [hr2]
        · rw [getBooksAux_errOther remote key m fuel rc idx status hr h429 h403]

theorem getPageAux_ok (remote : Nat → HtmlResponse) (m fuel rc idx : Nat)
    (doc : List HtmlItem) (hr : remote idx = .ok doc) :
    getPageAux remote m (fuel + 1) rc idx = (some doc, []) := by
  rw [getPageAux]
  simp [hr]

theorem getPageAux_retry (remote : Nat → HtmlResponse) (m fuel rc idx : Nat)
    (hr : (remote idx).isErr = true) (hrc : rc < m) :
    getPageAux remote m (fuel + 1) rc idx =
      ((getPageAux remote m fuel (rc + 1) (idx + 1)).1,
       2 ^ rc :: (getPageAux remote m fuel (rc + 1) (idx + 1)).2) := by
  rw [getPageAux]
  cases hcase : remote idx with
  | ok doc => rw [hcase] at hr; simp [HtmlResponse.isErr] at hr
  | httpErr status => simp [hcase, hrc]
  | transportErr => simp [hcase, hrc]

theorem getPageAux_stop (remote : Nat → HtmlResponse) (m fuel rc idx : Nat)
    (hr : (remote idx).isErr = true) (hrc : ¬ rc < m) :
    getPageAux remote m (fuel + 1) rc idx = (none, []) := by
  rw [getPageAux]
  cases hcase : remote idx with
  | ok doc => rw [hcase] at hr; simp [HtmlResponse.isErr] at hr
  | httpErr status => simp [hcase, hrc]
  | transportErr => simp [hcase, hrc]

/-- Every error response makes `get_page` return failure after its bounded
retries. -/
theorem getPageAux_err (remote : Nat → HtmlResponse) (m : Nat)
    (herr : ∀ n, (remote n).isErr = true) :
    ∀ (fuel rc idx : Nat), (getPageAux remote m fuel rc idx).1 = none := by
  intro fuel
  induction fuel with
  | zero => intro rc idx; rfl
  | succ fuel ih =>
    intro rc idx
    by_cases hrc : rc < m
    · rw [getPageAux_retry remote m fuel rc idx (herr idx) hrc]
      exact ih (rc + 1) (idx + 1)
    · rw [getPageAux_stop remote m fuel rc idx (herr idx) hrc]

/-! ## Lemmas about the year scanner -/

theorem yearDigits_iff (c1 c2 c3 c4 : Char) :
    yearDigits c1 c2 c3 c4 = true ↔ YearPattern c1 c2 c3 c4 := by
  simp [yearDigits, YearPattern, Bool.and_eq_true, Bool.or_eq_true,
    decide_eq_true_eq, and_assoc]

theorem boundary_suffix_iff (suf : List Char) :
    boundaryOk suf.head? = true ↔
      ∀ h, suf.head? = some h → isWordChar h = false := by
  cases suf with
  | nil => simp [boundaryOk]
  | cons a t => simp [boundaryOk]

theorem leftOk_nil_iff (prev : Option Char) :
    LeftOk prev [] ↔ boundaryOk prev = true := by
  simp [LeftOk]

theorem leftOk_cons (c : Char) (prev : Option Char) (pre : List Char)
    (h : LeftOk (some c) pre) : LeftOk prev (c :: pre) := by
  cases pre with
  | nil => simpa [LeftOk, boundaryOk, Bool.not_eq_true'] using h
  | cons p ps => simpa [LeftOk, List.getLast?_cons_cons] using h

theorem leftOk_of_cons (c : Char) (prev : Option Char) (pre : List Char)
    (h : LeftOk prev (c :: pre)) : LeftOk (some c) pre := by
  cases pre with
  | nil => simpa [LeftOk, boundaryOk, Bool.not_eq_true'] using h
  | cons p ps => simpa [LeftOk, List.getLast?_cons_cons] using h

theorem headYear_isSome_iff (prev : Option Char) (cs : List Char) :
    (headYear prev cs).isSome = true ↔
      ∃ c1 c2 c3 c4 suf, cs = c1 :: c2 :: c3 :: c4 :: suf ∧
        YearPattern c1 c2 c3 c4 ∧ boundaryOk prev = true ∧
        (∀ h, suf.head? = some h → isWordChar h = false) := by
  match cs with
  | [] => simp [headYear]
  | [a] => simp [headYear]
  | [a, b] => simp [headYear]
  | [a, b, c] => simp [headYear]
  | c1 :: c2 :: c3 :: c4 :: suf =>
    constructor
    · intro h
      rw [headYear] at h
      by_cases hc : (boundaryOk prev && yearDigits c1 c2 c3 c4 &&
          boundaryOk suf.head?) = true
      · obtain ⟨⟨hb, hyd⟩, hrb⟩ : (boundaryOk prev = true ∧
            yearDigits c1 c2 c3 c4 = true) ∧ boundaryOk suf.head? = true := by
          simpa [Bool.and_eq_true] using hc
        exact ⟨c1, c2, c3, c4, suf, rfl, (yearDigits_iff c1 c2 c3 c4).1 hyd, hb,
          (boundary_suffix_iff suf).1 hrb⟩
      · rw [if_neg hc] at h
        simp at h
    · rintro ⟨d1, d2, d3, d4, suf2, heq, hp, hbp, hrs⟩
      obtain ⟨rfl, rfl, rfl, rfl, rfl⟩ :
          c1 = d1 ∧ c2 = d2 ∧ c3 = d3 ∧ c4 = d4 ∧ suf = suf2 := by
        simpa [List.cons.injEq] using heq
      rw [headYear]
      have hc : (boundaryOk prev && yearDigits c1 c2 c3 c4 &&
          boundaryOk suf.head?) = true := by
        simp [Bool.and_eq_true, hbp, (yearDigits_iff c1 c2 c3 c4).2 hp,
          (boundary_suffix_iff suf).2 hrs]
      rw [if_pos hc]
      rfl

/-- Correctness of the scanner: a match is found exactly when the character
list decomposes around a standalone `19xx`/`20xx` number (relative to the
virtual preceding character `prev`). -/
theorem scanYear_isSome_iff :
    ∀ (cs : List Char) (prev : Option Char),
      (scanYear prev cs).isSome = true ↔ StandaloneYearFrom prev cs := by
  intro cs
  induction cs with
  | nil =>
    intro prev
    constructor
    · intro h; simp [scanYear] at h
    · rintro ⟨pre, c1, c2, c3, c4, suf, heq, _⟩
      exact absurd heq (by simp)
  | cons c rest ih =>
    intro prev
    rw [scanYear]
    cases hh : headYear prev (c :: rest) with
    | some y =>
      constructor
      · intro _
        have hs : (headYear prev (c :: rest)).isSome = true := by rw [hh]; rfl
        obtain ⟨c1, c2, c3, c4, suf, heq, hp, hbp, hrs⟩ :=
          (headYear_isSome_iff prev (c :: rest)).1 hs
        exact ⟨[], c1, c2, c3, c4, suf, by simpa using heq, hp,
          (leftOk_nil_iff prev).2 hbp, hrs⟩
      · intro _
        rfl
    | none =>
      constructor
      · intro h
        have h2 : (scanYear (some c) rest).isSome = true := h
        obtain ⟨pre, c1, c2, c3, c4, suf, heq, hp, hl, hrs⟩ := (ih (some c)).1 h2
        exact ⟨c :: pre, c1, c2, c3, c4, suf, by rw [heq]; rfl, hp,
          leftOk_cons c prev pre hl, hrs⟩
      · rintro ⟨pre, c1, c2, c3, c4, suf, heq, hp, hl, hrs⟩
        cases pre with
        | nil =>
          exfalso
          have heq2 : c :: rest = c1 :: c2 :: c3 :: c4 :: suf := by simpa using heq
          have hs : (headYear prev (c :: rest)).isSome = true :=
            (headYear_isSome_iff prev (c :: rest)).2
              ⟨c1, c2, c3, c4, suf, heq2, hp, (leftOk_nil_iff prev).1 hl, hrs⟩
          rw [hh] at hs
          simp at hs
        | cons p pre2 =>
          have hc : c = p ∧ rest = pre2 ++ c1 :: c2 :: c3 :: c4 :: suf := by
            simpa using heq
          show (scanYear (some c) rest).isSome = true
          refine (ih (some c)).2 ⟨pre2, c1, c2, c3, c4, suf, hc.2, hp, ?_, hrs⟩
          rw [hc.1]
          exact leftOk_of_cons p prev pre2 hl

theorem yearVal_bounds (c1 c2 c3 c4 : Char) (hp : YearPattern c1 c2 c3 c4) :
    1900 ≤ yearVal c1 c2 c3 c4 ∧ yearVal c1 c2 c3 c4 ≤ 2099 := by
  obtain ⟨h12, h3, h4⟩ := hp
  have hb3 : 48 ≤ c3.toNat ∧ c3.toNat ≤ 57 := by
    simpa [Char.isDigit, Bool.and_eq_true, decide_eq_true_eq] using h3
  have hb4 : 48 ≤ c4.toNat ∧ c4.toNat ≤ 57 := by
    simpa [Char.isDigit, Bool.and_eq_true, decide_eq_true_eq] using h4
  have e1 : ('1' : Char).toNat = 49 := rfl
  have e9 : ('9' : Char).toNat = 57 := rfl
  have e2 : ('2' : Char).toNat = 50 := rfl
  have e0 : ('0' : Char).toNat = 48 := rfl
  rcases h12 with ⟨h1, h2⟩ | ⟨h1, h2⟩ <;> subst h1 <;> subst h2 <;>
    unfold yearVal
  · rw [e1, e9]
    omega
  · rw [e2, e0]
    omega

theorem headYear_bounds (prev : Option Char) (cs : List Char) (y : Nat)
    (h : headYear prev cs = some y) : 1900 ≤ y ∧ y ≤ 2099 := by
  match cs with
  | [] => simp [headYear] at h
  | [a] => simp [headYear] at h
  | [a, b] => simp [headYear] at h
  | [a, b, c] => simp [headYear] at h
  | c1 :: c2 :: c3 :: c4 :: suf =>
    rw [headYear] at h
    by_cases hc : (boundaryOk prev && yearDigits c1 c2 c3 c4 &&
        boundaryOk suf.head?) = true
    · rw [if_pos hc] at h
      have hy : y = yearVal c1 c2 c3 c4 := (Option.some_inj.mp h).symm
      obtain ⟨⟨_, hyd⟩, _⟩ : (boundaryOk prev = true ∧
          yearDigits c1 c2 c3 c4 = true) ∧ boundaryOk suf.head? = true := by
        simpa [Bool.and_eq_true] using hc
      rw [hy]
      exact yearVal_bounds c1 c2 c3 c4 ((yearDigits_iff c1 c2 c3 c4).1 hyd)
    · rw [if_neg hc] at h
      simp at h

/-! ## Saturation: the scraper freezes once the target is reached -/

theorem processListings_freeze (minB : Nat) (items : List HtmlItem) (s : HState)
    (c : Nat) (h : minB ≤ s.buffer.length) :
    processListings minB items s c = (s, c) := by
  cases items with
  | nil => rfl
  | cons e rest => rw [processListings]; exact if_pos h

theorem catLoop_freeze (remote : String → Nat → Option (List HtmlItem))
    (hOut : Bool) (minB : Nat) (q : String) (fuel start streak : Nat) (s : HState)
    (h : minB ≤ s.buffer.length) :
    catLoop remote hOut minB q fuel start streak s = s := by
  cases fuel with
  | zero => rfl
  | succ fuel =>
    exact catLoop_stop remote hOut minB q fuel start streak s
      (fun hc => absurd hc.2 (by omega))

theorem truthyStr_eq_some {o : Option String} {k : String}
    (h : truthyStr o = some k) : o = some k := by
  cases o with
  | none => simp [truthyStr] at h
  | some s =>
    by_cases hs : s = "" <;> simp [truthyStr, hs] at h
    rw [h]

theorem scanYear_bounds :
    ∀ (cs : List Char) (prev : Option Char) (y : Nat),
      scanYear prev cs = some y → 1900 ≤ y ∧ y ≤ 2099 := by
  intro cs
  induction cs with
  | nil => intro prev y h; simp [scanYear] at h
  | cons c rest ih =>
    intro prev y h
    rw [scanYear] at h
    cases hh : headYear prev (c :: rest) with
    | some y2 =>
      rw [hh] at h
      have hy : y2 = y := Option.some_inj.mp h
      rw [← hy]
      exact headYear_bounds prev (c :: rest) y2 hh
    | none =>
      rw [hh] at h
      exact ih (some c) y h

/-! ## The positive side of periodic persistence

The persistence check runs exactly at the end of a processed page from which
the loop does not break: the API loop reaches it after every successful
non-empty page, the HTML loop after every processed page except a full
empty-streak break (`02_scraping.py` breaks at line 185 before the check at
line 189).  At such a point the whole buffer is persisted precisely when it
is non-empty with a length that is an exact multiple of 100. -/

theorem foldl_admitBook_saves (items : List ApiItem) :
    ∀ (s : AState), (items.foldl admitBook s).saves = s.saves := by
  induction items with
  | nil => intro s; rfl
  | cons i rest ih => intro s; rw [List.foldl_cons, ih, admitBook_saves]

theorem save100A_hit (s : AState) (hpos : 0 < s.buffer.length)
    (hmod : s.buffer.length % 100 = 0) :
    save100A true s = { s with saves := s.saves ++ [s.buffer] } := by
  unfold save100A
  rw [if_pos ⟨rfl, hpos, hmod⟩]

theorem save100A_skip (h : Bool) (s : AState)
    (hc : ¬ (0 < s.buffer.length ∧ s.buffer.length % 100 = 0)) :
    save100A h s = s := by
  unfold save100A
  rw [if_neg (fun hx => hc ⟨hx.2.1, hx.2.2⟩)]

theorem save100H_hit (s : HState) (hpos : 0 < s.buffer.length)
    (hmod : s.buffer.length % 100 = 0) :
    save100H true s = { s with saves := s.saves ++ [s.buffer] } := by
  unfold save100H
  rw [if_pos ⟨rfl, hpos, hmod⟩]

theorem save100H_skip (h : Bool) (s : HState)
    (hc : ¬ (0 < s.buffer.length ∧ s.buffer.length % 100 = 0)) :
    save100H h s = s := by
  unfold save100H
  rw [if_neg (fun hx => hc ⟨hx.2.1, hx.2.2⟩)]

theorem save100A_saves_mono (h : Bool) (s : AState) (b : List ARecord)
    (hb : b ∈ s.saves) : b ∈ (save100A h s).saves := by
  unfold save100A
  split
  · exact List.mem_append.2 (Or.inl hb)
  · exact hb

theorem save100H_saves_mono (h : Bool) (s : HState) (b : List HRecord)
    (hb : b ∈ s.saves) : b ∈ (save100H h s).saves := by
  unfold save100H
  split
  · exact List.mem_append.2 (Or.inl hb)
  · exact hb

theorem apiQueryLoop_saves_mono (remote : String → Nat → Option ApiJson)
    (hOut : Bool) (maxB : Nat) (q : String) :
    ∀ (fuel start : Nat) (s : AState) (b : List ARecord),
      b ∈ s.saves → b ∈ (apiQueryLoop remote hOut maxB q fuel start s).saves := by
  intro fuel
  induction fuel with
  | zero => intro start s b hb; exact hb
  | succ fuel ih =>
    intro start s b hb
    by_cases hg : start < maxB
    · cases hrem : remote q start with
      | none => rw [apiQueryLoop_fail remote hOut maxB q fuel start s hg hrem]; exact hb
      | some j =>
        cases hit : j.items with
        | none =>
          rw [apiQueryLoop_noitems remote hOut maxB q fuel start s hg j hrem hit]
          exact hb
        | some items =>
          by_cases hlen : 0 < items.length
          · rw [apiQueryLoop_page remote hOut maxB q fuel start s hg j items hrem hit hlen]
            refine ih _ _ b (save100A_saves_mono hOut _ b ?_)
            rw [foldl_admitBook_saves]
            exact hb
          · rw [apiQueryLoop_emptypage remote hOut maxB q fuel start s hg j items
              hrem hit hlen]
            exact hb
    · rw [apiQueryLoop_stop remote hOut maxB q fuel start s hg]; exact hb

theorem catLoop_saves_mono (remote : String → Nat → Option (List HtmlItem))
    (hOut : Bool) (minB : Nat) (q : String) :
    ∀ (fuel start streak : Nat) (s : HState) (b : List HRecord),
      b ∈ s.saves → b ∈ (catLoop remote hOut minB q fuel start streak s).saves := by
  intro fuel
  induction fuel with
  | zero => intro start streak s b hb; exact hb
  | succ fuel ih =>
    intro start streak s b hb
    by_cases hg : start < 10000 ∧ s.buffer.length < minB
    · cases hrem : remote q start with
      | none => rw [catLoop_fail remote hOut minB q fuel start streak s hg hrem]; exact hb
      | some books =>
        by_cases hbl : books.length = 0
        · rw [catLoop_nobooks remote hOut minB q fuel start streak s hg books hrem hbl]
          exact hb
        · rw [catLoop_step remote hOut minB q fuel start streak s hg books hrem hbl]
          have hps : b ∈ (processListings minB books
              { s with fetches := s.fetches ++ [(q, start)] } 0).1.saves := by
            rw [processListings_saves]
            exact hb
          by_cases hp2 : (processListings minB books
              { s with fetches := s.fetches ++ [(q, start)] } 0).2 = 0
          · by_cases hstreak : 5 ≤ streak + 1
            · rw [if_pos hp2, if_pos hstreak]; exact hps
            · rw [if_pos hp2, if_neg hstreak]
              exact ih _ _ _ b (save100H_saves_mono hOut _ b hps)
          · rw [if_neg hp2]
            exact ih _ _ _ b (save100H_saves_mono hOut _ b hps)
    · rw [catLoop_stop remote hOut minB q fuel start streak s hg]; exact hb

/-- Positive persistence, API loop: after every successful non-empty page,
the periodic check is reached, so when the post-admission buffer is non-empty
with a length that is an exact multiple of 100, that whole buffer is
persisted during the loop. -/
theorem apiQueryLoop_persists (remote : String → Nat → Option ApiJson)
    (maxB : Nat) (q : String) (fuel start : Nat) (s : AState) (j : ApiJson)
    (items : List ApiItem) (hg : start < maxB) (hrem : remote q start = some j)
    (hit : j.items = some items) (hlen : 0 < items.length)
    (hpos : 0 < (items.foldl admitBook
      { s with fetches := s.fetches ++ [(q, start)] }).buffer.length)
    (hmod : (items.foldl admitBook
      { s with fetches := s.fetches ++ [(q, start)] }).buffer.length % 100 = 0) :
    (items.foldl admitBook
      { s with fetches := s.fetches ++ [(q, start)] }).buffer ∈
      (apiQueryLoop remote true maxB q (fuel + 1) start s).saves := by
  rw [apiQueryLoop_page remote true maxB q fuel start s hg j items hrem hit hlen]
  refine apiQueryLoop_saves_mono remote true maxB q fuel _ _ _ ?_
  rw [save100A_hit _ hpos hmod]
  exact List.mem_append.2 (Or.inr (List.mem_singleton.2 rfl))

/-- Positive persistence, HTML loop: after every processed page from which
the loop does not break on a full empty-page streak, the periodic check is
reached, so when the post-page buffer is non-empty with a length that is an
exact multiple of 100, that whole buffer is persisted during the loop. -/
theorem catLoop_persists (remote : String → Nat → Option (List HtmlItem))
    (minB : Nat) (q : String) (fuel start streak : Nat) (s : HState)
    (books : List HtmlItem)
    (hg : start < 10000 ∧ s.buffer.length < minB)
    (hrem : remote q start = some books) (hb : ¬ books.length = 0)
    (hcont : (processListings minB books
        { s with fetches := s.fetches ++ [(q, start)] } 0).2 ≠ 0 ∨
      ¬ 5 ≤ streak + 1)
    (hpos : 0 < (processListings minB books
        { s with fetches := s.fetches ++ [(q, start)] } 0).1.buffer.length)
    (hmod : (processListings minB books
        { s with fetches := s.fetches ++ [(q, start)] } 0).1.buffer.length % 100 = 0) :
    (processListings minB books
        { s with fetches := s.fetches ++ [(q, start)] } 0).1.buffer ∈
      (catLoop remote true minB q (fuel + 1) start streak s).saves := by
  rw [catLoop_step remote true minB q fuel start streak s hg books hrem hb]
  by_cases hp2 : (processListings minB books
      { s with fetches := s.fetches ++ [(q, start)] } 0).2 = 0
  · rcases hcont with hc | hc
    · exact absurd hp2 hc
    · rw [if_pos hp2, if_neg hc]
      refine catLoop_saves_mono remote true minB q fuel _ _ _ _ ?_
      rw [save100H_hit _ hpos hmod]
      exact List.mem_append.2 (Or.inr (List.mem_singleton.2 rfl))
  · rw [if_neg hp2]
    refine catLoop_saves_mono remote true minB q fuel _ _ _ _ ?_
    rw [save100H_hit _ hpos hmod]
    exact List.mem_append.2 (Or.inr (List.mem_singleton.2 rfl))

/-- A full empty-page streak breaks the HTML loop before the persistence
check: such an iteration persists nothing, whatever the buffer length. -/
theorem catLoop_streak_break_saves (remote : String → Nat → Option (List HtmlItem))
    (hOut : Bool) (minB : Nat) (q : String) (fuel start streak : Nat) (s : HState)
    (books : List HtmlItem)
    (hg : start < 10000 ∧ s.buffer.length < minB)
    (hrem : remote q start = some books) (hb : ¬ books.length = 0)
    (hp2 : (processListings minB books
        { s with fetches := s.fetches ++ [(q, start)] } 0).2 = 0)
    (hstreak : 5 ≤ streak + 1) :
    (catLoop remote hOut minB q (fuel + 1) start streak s).saves = s.saves := by
  rw [catLoop_step remote hOut minB q fuel start streak s hg books hrem hb,
    if_pos hp2, if_pos hstreak, processListings_saves]

/-! # The claims -/

/-- C1, counterexample.  A catalog page at offset 1 returns 7 items (all new),
yet the next request of the HTML pagination loop goes to offset 26 = 1 + 25,
not 1 + 7: the catalog cursor advances by the fixed page size, not by the
number of items returned.  (The run: one category, a 7-item page at offset 1,
an empty page at offset 26 that ends the category.) -/
theorem C1_counterexample :
    (let items7 : List HtmlItem :=
      [{ title := some "t1" }, { title := some "t2" }, { title := some "t3" },
       { title := some "t4" }, { title := some "t5" }, { title := some "t6" },
       { title := some "t7" }];
     let remote : String → Nat → Option (List HtmlItem) :=
       fun _ i => if i = 1 then some items7 else some [];
     (scrapeCats remote false 1000 ["c"] emptyH).fetches = [("c", 1), ("c", 26)] ∧
     items7.length = 7 ∧ ((26 : Nat) ≠ 1 + 7)) := by
  exact ⟨by decide, rfl, by decide⟩

/-- C1, amended.  Cursor correctness holds for the API pagination loop: its
fetch offsets are `apiOffsets`, a function of the remote source alone, and
consecutive offsets differ by exactly the item count of the earlier page
(`apiPageLen`), never by the configured page size when the two differ.  The
HTML catalog loop instead always advances by the fixed stride 25: its fetch
offsets are `start, start + 25, start + 50, ...` regardless of how many items
each page returned. -/
theorem C1_cursor_amended :
    (∀ (remote : String → Nat → Option ApiJson) (hOut : Bool) (maxB : Nat)
        (q : String) (fuel start : Nat) (s : AState),
      (apiQueryLoop remote hOut maxB q fuel start s).fetches =
        s.fetches ++ (apiOffsets remote q maxB fuel start).map (fun o => (q, o)) ∧
      (apiOffsets remote q maxB fuel start).Chain'
        (fun a b => b = a + apiPageLen remote q a)) ∧
    (∀ (remote : String → Nat → Option (List HtmlItem)) (hOut : Bool)
        (minB : Nat) (q : String) (fuel start streak : Nat) (s : HState),
      ∃ n, (catLoop remote hOut minB q fuel start streak s).fetches =
        s.fetches ++ (List.range n).map (fun j => (q, start + 25 * j))) :=
  ⟨fun remote hOut maxB q fuel start s =>
    ⟨apiQueryLoop_fetches remote hOut maxB q fuel start s,
     apiOffsets_chain remote q maxB fuel start⟩,
   fun remote hOut minB q fuel start streak s =>
    catLoop_fetches remote hOut minB q fuel start streak s⟩

/-- C2, counterexample.  Startup seeding does not synchronize buffer and
seen-set in general: a checkpoint file whose rows carry the same id twice
seeds a buffer of length 2 but a seen-set of size 1, so `len(buffer) ==
len(seen_set)` fails right after seeding. -/
theorem C2_counterexample :
    ¬ ((loadA (ACheckpoint.table ["id"]
        [{ id := some "a" }, { id := some "a" }])).1.buffer.length =
      (loadA (ACheckpoint.table ["id"]
        [{ id := some "a" }, { id := some "a" }])).1.seen.length) := by
  decide

/-- C2, amended.  Provided the checkpoint rows have present, pairwise-distinct
keys (`ASeedOK`/`HSeedOK`; in particular for a missing or unreadable file, and
for any file the pipelines themselves produce from such a start), buffer and
seen-set are synchronized (`AInv`/`HInv`: mutual key containment, no duplicate
keys, equal sizes) right after seeding, after every admission step, and at
every later point of either driver. -/
theorem C2_sync_amended :
    (∀ cp : ACheckpoint, ASeedOK cp → AInv (loadA cp).1) ∧
    (∀ (s : AState) (i : ApiItem), AInv s → AInv (admitBook s i)) ∧
    (∀ (remote : String → Nat → Option ApiJson) (hOut : Bool) (maxB : Nat)
        (queries : List String) (cp : ACheckpoint), ASeedOK cp →
      AInv (collectBooksLoop remote hOut maxB queries (loadA cp).1)) ∧
    (∀ cp : HCheckpoint, HSeedOK cp → HInv (loadH cp).1) ∧
    (∀ (minB : Nat) (items : List HtmlItem) (s : HState) (c : Nat), HInv s →
      HInv (processListings minB items s c).1) ∧
    (∀ (remote : String → Nat → Option (List HtmlItem)) (hOut : Bool)
        (minB : Nat) (cats : List String) (cp : HCheckpoint), HSeedOK cp →
      HInv (scrapeCats remote hOut minB cats (loadH cp).1)) :=
  ⟨loadA_inv,
   fun _ i h => admitBook_inv i h,
   fun remote hOut maxB queries cp hcp =>
    collectBooksLoop_inv remote hOut maxB queries (loadA_inv cp hcp),
   loadH_inv,
   fun minB items _ c h => processListings_inv minB items c h,
   fun remote hOut minB cats cp hcp =>
    scrapeCats_inv remote hOut minB cats (loadH_inv cp hcp)⟩

/-- Witness for C2's amended theorem at a concrete checkpoint. -/
theorem C2_sync_witness :
    AInv (loadA (ACheckpoint.table ["id"] [{ id := some "x" }])).1 :=
  C2_sync_amended.1 (ACheckpoint.table ["id"] [{ id := some "x" }])
    ⟨by decide, by decide⟩

/-- C3: idempotence.  For every remote source, running a driver a second time
with the source unchanged and the checkpoint file produced by a fresh first
run yields a final buffer identical to the first run's, with no duplicate
keys, and the second run admits zero new records.  (The checkpoint file is
the first run's buffer written wholesale; for the API pipeline its columns
include `id`.) -/
theorem C3_second_run_idempotent :
    ∀ (remoteA : String → Nat → Option ApiJson) (queries : List String)
      (maxB : Nat) (colsA : List String)
      (remoteH : String → Nat → Option (List HtmlItem)) (minB : Nat)
      (colsH : List String),
      "id" ∈ colsA →
      ((collect_books_from_api remoteA queries maxB
          (some (ACheckpoint.table colsA
            (collect_books_from_api remoteA queries maxB
              (some ACheckpoint.missing)).buffer))).buffer =
        (collect_books_from_api remoteA queries maxB
          (some ACheckpoint.missing)).buffer ∧
       (collect_books_from_api remoteA queries maxB
          (some (ACheckpoint.table colsA
            (collect_books_from_api remoteA queries maxB
              (some ACheckpoint.missing)).buffer))).admits = 0 ∧
       ((collect_books_from_api remoteA queries maxB
          (some ACheckpoint.missing)).buffer.filterMap
            (fun r => truthyStr r.id)).Nodup) ∧
      ((scrape_gutenberg remoteH minB
          (some (HCheckpoint.table colsH
            (scrape_gutenberg remoteH minB (some HCheckpoint.missing)).buffer))).buffer =
        (scrape_gutenberg remoteH minB (some HCheckpoint.missing)).buffer ∧
       (scrape_gutenberg remoteH minB
          (some (HCheckpoint.table colsH
            (scrape_gutenberg remoteH minB (some HCheckpoint.missing)).buffer))).admits = 0 ∧
       ((scrape_gutenberg remoteH minB
          (some HCheckpoint.missing)).buffer.filterMap
            (fun r => truthyStr r.title)).Nodup) := by
  intro remoteA queries maxB colsA remoteH minB colsH hcol
  constructor
  · -- API pipeline
    have hinv1 : AInv (collectBooksLoop remoteA true maxB queries emptyA) :=
      collectBooksLoop_inv remoteA true maxB queries (SyncInv.nil _)
    have hseed2 : (loadA (ACheckpoint.table colsA
        (collectBooksLoop remoteA true maxB queries emptyA).buffer)).1 =
        { emptyA with
          buffer := (collectBooksLoop remoteA true maxB queries emptyA).buffer
          seen := ((collectBooksLoop remoteA true maxB queries emptyA).buffer.filterMap
            ARecord.id).dedup } := by
      rw [loadA]
      simp [hcol]
    have hsup : ∀ k ∈ (collectBooksLoop remoteA true maxB queries emptyA).seen,
        k ∈ (loadA (ACheckpoint.table colsA
          (collectBooksLoop remoteA true maxB queries emptyA).buffer)).1.seen := by
      intro k hk
      obtain ⟨r, hr, hkey⟩ := hinv1.2.1 k hk
      rw [hseed2]
      show k ∈ ((collectBooksLoop remoteA true maxB queries emptyA).buffer.filterMap
        ARecord.id).dedup
      rw [List.mem_dedup]
      exact List.mem_filterMap.2 ⟨r, hr, truthyStr_eq_some hkey⟩
    have hfroz := collectBooksLoop_frozen remoteA true maxB queries
      (loadA (ACheckpoint.table colsA
        (collectBooksLoop remoteA true maxB queries emptyA).buffer)).1
      (by
        intro q hq o ho i hi k hk
        exact hsup k
          (collectBooksLoop_covers remoteA true maxB queries emptyA q hq o ho i hi k hk))
    refine ⟨?_, ?_, hinv1.2.2.1⟩
    · show (collectBooksLoop remoteA true maxB queries
          (loadA (ACheckpoint.table colsA
            (collectBooksLoop remoteA true maxB queries emptyA).buffer)).1).buffer =
        (collectBooksLoop remoteA true maxB queries emptyA).buffer
      rw [hfroz.1, hseed2]
    · show (collectBooksLoop remoteA true maxB queries
          (loadA (ACheckpoint.table colsA
            (collectBooksLoop remoteA true maxB queries emptyA).buffer)).1).admits = 0
      rw [hfroz.2.2, hseed2]
      rfl
  · -- HTML pipeline
    have hinv1 : HInv (scrapeCats remoteH true minB gutenbergCategories emptyH) :=
      scrapeCats_inv remoteH true minB gutenbergCategories (SyncInv.nil _)
    have hsup : ∀ k ∈ (scrapeCats remoteH true minB gutenbergCategories emptyH).seen,
        k ∈ (loadH (HCheckpoint.table colsH
          (scrapeCats remoteH true minB gutenbergCategories emptyH).buffer)).1.seen := by
      intro k hk
      obtain ⟨r, hr, hkey⟩ := hinv1.2.1 k hk
      show k ∈ ((scrapeCats remoteH true minB gutenbergCategories emptyH).buffer.filterMap
        (fun r => truthyStr r.title)).dedup
      rw [List.mem_dedup]
      exact List.mem_filterMap.2 ⟨r, hr, hkey⟩
    by_cases hlen : minB ≤ (scrapeCats remoteH true minB gutenbergCategories emptyH).buffer.length
    · -- the first run reached the target: the second run freezes immediately
      have hfr := scrapeCats_freeze remoteH true minB gutenbergCategories
        (loadH (HCheckpoint.table colsH
          (scrapeCats remoteH true minB gutenbergCategories emptyH).buffer)).1 hlen
      refine ⟨?_, ?_, hinv1.2.2.1⟩
      · show (scrapeCats remoteH true minB gutenbergCategories
            (loadH (HCheckpoint.table colsH
              (scrapeCats remoteH true minB gutenbergCategories emptyH).buffer)).1).buffer =
          (scrapeCats remoteH true minB gutenbergCategories emptyH).buffer
        rw [hfr]
        rfl
      · show (scrapeCats remoteH true minB gutenbergCategories
            (loadH (HCheckpoint.table colsH
              (scrapeCats remoteH true minB gutenbergCategories emptyH).buffer)).1).admits = 0
        rw [hfr]
        rfl
    · -- below the target: the replay lemma applies
      have hrep := scrapeCats_replay remoteH true minB gutenbergCategories emptyH
        (loadH (HCheckpoint.table colsH
          (scrapeCats remoteH true minB gutenbergCategories emptyH).buffer)).1
        (by
          show (scrapeCats remoteH true minB gutenbergCategories emptyH).buffer.length < minB
          omega)
        (le_refl _)
        hsup
      refine ⟨?_, ?_, hinv1.2.2.1⟩
      · show (scrapeCats remoteH true minB gutenbergCategories
            (loadH (HCheckpoint.table colsH
              (scrapeCats remoteH true minB gutenbergCategories emptyH).buffer)).1).buffer =
          (scrapeCats remoteH true minB gutenbergCategories emptyH).buffer
        rw [hrep.1]
        rfl
      · show (scrapeCats remoteH true minB gutenbergCategories
            (loadH (HCheckpoint.table colsH
              (scrapeCats remoteH true minB gutenbergCategories emptyH).buffer)).1).admits = 0
        rw [hrep.2.2]
        rfl

/-- Witness for C3 at a concrete remote source and worklist. -/
theorem C3_witness :
    ("id" ∈ ["id"]) ∧
    ((collect_books_from_api (fun _ _ => none) ["q"] 5
        (some (ACheckpoint.table ["id"]
          (collect_books_from_api (fun _ _ => none) ["q"] 5
            (some ACheckpoint.missing)).buffer))).buffer =
      (collect_books_from_api (fun _ _ => none) ["q"] 5
        (some ACheckpoint.missing)).buffer) :=
  ⟨by decide,
   ((C3_second_run_idempotent (fun _ _ => none) ["q"] 5 ["id"]
      (fun _ _ => some []) 3 ["title"] (by decide)).1).1⟩

/-- C4, counterexample.  The API driver has no overall target count: a run
seeded with 5 records and `max_books_per_query = 1` (so the accumulated count
exceeds any count the configuration could be read as targeting) still issues
one page fetch per remaining worklist item instead of halting. -/
theorem C4_counterexample :
    (let rows : List ARecord := [{ id := some "a" }, { id := some "b" },
       { id := some "c" }, { id := some "d" }, { id := some "e" }];
     let r := collect_books_from_api (fun _ _ => none) ["q1", "q2"] 1
       (some (ACheckpoint.table ["id"] rows));
     r.buffer.length = 5 ∧ r.fetches = [("q1", 0), ("q2", 0)]) :=
  ⟨by decide, by decide⟩

/-- C4, amended.  The HTML driver halts once the buffer reaches `min_books`:
a saturated state is a fixed point of the category loop, of the per-category
pagination loop, and of the per-page item loop, so no further page is fetched
and no further record is admitted, regardless of remaining worklist items.
The API driver, in contrast, has no overall target: its fetch schedule
(`apiOffsets`) is a function of the remote source alone and never consults
the accumulated record count. -/
theorem C4_global_stop_amended :
    (∀ (remote : String → Nat → Option (List HtmlItem)) (hOut : Bool)
        (minB : Nat) (cats : List String) (s : HState),
      minB ≤ s.buffer.length → scrapeCats remote hOut minB cats s = s) ∧
    (∀ (remote : String → Nat → Option (List HtmlItem)) (hOut : Bool)
        (minB : Nat) (q : String) (fuel start streak : Nat) (s : HState),
      minB ≤ s.buffer.length → catLoop remote hOut minB q fuel start streak s = s) ∧
    (∀ (minB : Nat) (items : List HtmlItem) (s : HState) (c : Nat),
      minB ≤ s.buffer.length → processListings minB items s c = (s, c)) ∧
    (∀ (remote : String → Nat → Option ApiJson) (hOut : Bool) (maxB : Nat)
        (q : String) (fuel start : Nat) (s : AState),
      (apiQueryLoop remote hOut maxB q fuel start s).fetches =
        s.fetches ++ (apiOffsets remote q maxB fuel start).map (fun o => (q, o))) :=
  ⟨fun remote hOut minB cats s h => scrapeCats_freeze remote hOut minB cats s h,
   fun remote hOut minB q fuel start streak s h =>
    catLoop_freeze remote hOut minB q fuel start streak s h,
   fun minB items s c h => processListings_freeze minB items s c h,
   fun remote hOut maxB q fuel start s =>
    apiQueryLoop_fetches remote hOut maxB q fuel start s⟩

/-- Witness for C4's amended theorem at a concrete saturated state. -/
theorem C4_witness :
    ((1 : Nat) ≤ ({ buffer := [{ title := some "x" }] } : HState).buffer.length) ∧
    scrapeCats (fun _ _ => some []) true 1 ["c"]
      ({ buffer := [{ title := some "x" }] } : HState) =
      ({ buffer := [{ title := some "x" }] } : HState) :=
  ⟨by decide,
   C4_global_stop_amended.1 (fun _ _ => some []) true 1 ["c"]
     ({ buffer := [{ title := some "x" }] } : HState) (by decide)⟩

/-- The 101 distinct listing items used by C5's counterexample. -/
def c5Items : List HtmlItem :=
  (List.range 101).map (fun n => { title := some ("t" ++ toString n) })

/-- The remote catalog of C5's counterexample: a single 101-item page for the
first category, empty pages everywhere else. -/
def c5Remote : String → Nat → Option (List HtmlItem) :=
  fun q i => if q = "Adventure" ∧ i = 1 then some c5Items else some []

set_option maxRecDepth 100000 in
/-- C5, counterexample.  A scraper run with an output path configured whose
first page takes the buffer from 0 to 101 records crosses the 100 boundary
(trigger (a)) and completes every category of the worklist (trigger (b)), yet
attempts no persist at all: `saves = []`.  The only unconditional write is in
`__main__`, outside the driver. -/
theorem C5_counterexample :
    (scrape_gutenberg c5Remote 1000 (some HCheckpoint.missing)).saves = [] ∧
    (scrape_gutenberg c5Remote 1000 (some HCheckpoint.missing)).buffer.length = 101 := by
  exact ⟨by decide, by decide⟩

/-- C5, amended.  Persistence behaviour of the two drivers: (a) during
pagination, a wholesale persist happens only at the end of a processed page
where the buffer length is an exact positive multiple of 100 (crossing a
boundary without landing on it persists nothing), and every such snapshot is
a prefix of the final buffer; conversely the persist is attempted whenever
the check is reached with the buffer at a non-empty multiple of 100 — after
every successful non-empty API page, and after every processed HTML page
from which the loop does not break on a full empty-page streak (the streak
break at `02_scraping.py` line 185 precedes the check at line 189, so such a
page persists nothing whatever the buffer length); (b) the API driver
persists the whole buffer after each query when it is non-empty, while the
HTML driver has no per-category persist; (c) the unconditional end-of-run
persist is performed by the `__main__` blocks, which write the final buffer
wholesale. -/
theorem C5_persistence_amended :
    (∀ (remote : String → Nat → Option (List HtmlItem)) (hOut : Bool)
        (minB : Nat) (q : String) (fuel start streak : Nat) (s : HState),
      ∀ b ∈ (catLoop remote hOut minB q fuel start streak s).saves,
        b ∈ s.saves ∨ (0 < b.length ∧ b.length % 100 = 0 ∧
          ∃ t, (catLoop remote hOut minB q fuel start streak s).buffer = b ++ t)) ∧
    (∀ (remote : String → Nat → Option (List HtmlItem)) (hOut : Bool)
        (minB : Nat) (cats : List String) (s : HState),
      ∀ b ∈ (scrapeCats remote hOut minB cats s).saves,
        b ∈ s.saves ∨ (0 < b.length ∧ b.length % 100 = 0 ∧
          ∃ t, (scrapeCats remote hOut minB cats s).buffer = b ++ t)) ∧
    (∀ (remote : String → Nat → Option ApiJson) (hOut : Bool) (maxB : Nat)
        (queries : List String) (s : AState),
      ∀ b ∈ (collectBooksLoop remote hOut maxB queries s).saves,
        b ∈ s.saves ∨ (0 < b.length ∧
          ∃ t, (collectBooksLoop remote hOut maxB queries s).buffer = b ++ t)) ∧
    (∀ (remote : String → Nat → Option ApiJson) (hOut : Bool) (maxB : Nat)
        (q : String) (rest : List String) (s : AState),
      collectBooksLoop remote hOut maxB (q :: rest) s =
        collectBooksLoop remote hOut maxB rest
          (saveQueryA hOut (apiQueryLoop remote hOut maxB q 500 0 s))) ∧
    (∀ s : AState, 0 < s.buffer.length →
      saveQueryA true s = { s with saves := s.saves ++ [s.buffer] }) ∧
    (∀ (remote : String → Nat → Option ApiJson) (queries : List String)
        (maxB : Nat) (cp : ACheckpoint),
      (apiMain remote queries maxB cp).saves =
        (collect_books_from_api remote queries maxB (some cp)).saves ++
          [(collect_books_from_api remote queries maxB (some cp)).buffer]) ∧
    (∀ (remote : String → Nat → Option (List HtmlItem)) (minB : Nat)
        (cp : HCheckpoint),
      (htmlMain remote minB cp).saves =
        (scrape_gutenberg remote minB (some cp)).saves ++
          [(scrape_gutenberg remote minB (some cp)).buffer]) ∧
    (∀ (remote : String → Nat → Option ApiJson) (maxB : Nat) (q : String)
        (fuel start : Nat) (s : AState) (j : ApiJson) (items : List ApiItem),
      start < maxB → remote q start = some j → j.items = some items →
      0 < items.length →
      0 < (items.foldl admitBook
        { s with fetches := s.fetches ++ [(q, start)] }).buffer.length →
      (items.foldl admitBook
        { s with fetches := s.fetches ++ [(q, start)] }).buffer.length % 100 = 0 →
      (items.foldl admitBook
        { s with fetches := s.fetches ++ [(q, start)] }).buffer ∈
        (apiQueryLoop remote true maxB q (fuel + 1) start s).saves) ∧
    (∀ (remote : String → Nat → Option (List HtmlItem)) (minB : Nat)
        (q : String) (fuel start streak : Nat) (s : HState)
        (books : List HtmlItem),
      start < 10000 ∧ s.buffer.length < minB → remote q start = some books →
      ¬ books.length = 0 →
      ((processListings minB books
          { s with fetches := s.fetches ++ [(q, start)] } 0).2 ≠ 0 ∨
        ¬ 5 ≤ streak + 1) →
      0 < (processListings minB books
        { s with fetches := s.fetches ++ [(q, start)] } 0).1.buffer.length →
      (processListings minB books
        { s with fetches := s.fetches ++ [(q, start)] } 0).1.buffer.length % 100 = 0 →
      (processListings minB books
        { s with fetches := s.fetches ++ [(q, start)] } 0).1.buffer ∈
        (catLoop remote true minB q (fuel + 1) start streak s).saves) ∧
    (∀ (remote : String → Nat → Option (List HtmlItem)) (hOut : Bool)
        (minB : Nat) (q : String) (fuel start streak : Nat) (s : HState)
        (books : List HtmlItem),
      start < 10000 ∧ s.buffer.length < minB → remote q start = some books →
      ¬ books.length = 0 →
      (processListings minB books
        { s with fetches := s.fetches ++ [(q, start)] } 0).2 = 0 →
      5 ≤ streak + 1 →
      (catLoop remote hOut minB q (fuel + 1) start streak s).saves = s.saves) := by
  refine ⟨fun remote hOut minB q fuel start streak s =>
      catLoop_saves_mem remote hOut minB q fuel start streak s,
    fun remote hOut minB cats s => scrapeCats_saves_mem remote hOut minB cats s,
    fun remote hOut maxB queries s => collectBooksLoop_saves_mem remote hOut maxB queries s,
    fun remote hOut maxB q rest s => collectBooksLoop_cons remote hOut maxB q rest s,
    ?_, fun _ _ _ _ => rfl, fun _ _ _ => rfl,
    fun remote maxB q fuel start s j items hg hrem hit hlen hpos hmod =>
      apiQueryLoop_persists remote maxB q fuel start s j items hg hrem hit hlen hpos hmod,
    fun remote minB q fuel start streak s books hg hrem hb hcont hpos hmod =>
      catLoop_persists remote minB q fuel start streak s books hg hrem hb hcont hpos hmod,
    fun remote hOut minB q fuel start streak s books hg hrem hb hp2 hstreak =>
      catLoop_streak_break_saves remote hOut minB q fuel start streak s books
        hg hrem hb hp2 hstreak⟩
  intro s h
  unfold saveQueryA
  rw [if_pos ⟨rfl, h⟩]

/-- The 100 distinct API items used by C5's positive-persistence witness. -/
def c5wItems : List ApiItem :=
  (List.range 100).map (fun n => { id := some ("b" ++ toString n) })

set_option maxRecDepth 100000 in
/-- Witness for C5's amended theorem: the per-query persist fires at a
concrete non-empty state, and the periodic persist fires on a concrete page
that takes an empty buffer to exactly 100 records. -/
theorem C5_witness :
    ((0 < ({ buffer := [{ id := some "a" }] } : AState).buffer.length) ∧
     saveQueryA true ({ buffer := [{ id := some "a" }] } : AState) =
       { ({ buffer := [{ id := some "a" }] } : AState) with
         saves := ({ buffer := [{ id := some "a" }] } : AState).saves ++
           [({ buffer := [{ id := some "a" }] } : AState).buffer] }) ∧
    ((0 : Nat) < 1000 ∧
     (fun (_ : String) (_ : Nat) => some ({ items := some c5wItems } : ApiJson)) "q" 0 =
       some ({ items := some c5wItems } : ApiJson) ∧
     ({ items := some c5wItems } : ApiJson).items = some c5wItems ∧
     0 < c5wItems.length ∧
     0 < (c5wItems.foldl admitBook
       { emptyA with fetches := emptyA.fetches ++ [("q", 0)] }).buffer.length ∧
     (c5wItems.foldl admitBook
       { emptyA with fetches := emptyA.fetches ++ [("q", 0)] }).buffer.length % 100 = 0 ∧
     (c5wItems.foldl admitBook
       { emptyA with fetches := emptyA.fetches ++ [("q", 0)] }).buffer ∈
       (apiQueryLoop
         (fun (_ : String) (_ : Nat) => some ({ items := some c5wItems } : ApiJson))
         true 1000 "q" (0 + 1) 0 emptyA).saves) :=
  ⟨⟨by decide,
    C5_persistence_amended.2.2.2.2.1 ({ buffer := [{ id := some "a" }] } : AState)
      (by decide)⟩,
   by decide, rfl, rfl, by decide, by decide, by decide,
   C5_persistence_amended.2.2.2.2.2.2.2.1
     (fun (_ : String) (_ : Nat) => some ({ items := some c5wItems } : ApiJson))
     1000 "q" 0 0 emptyA ({ items := some c5wItems } : ApiJson) c5wItems
     (by decide) rfl rfl (by decide) (by decide) (by decide)⟩

/-- C6, counterexample.  The scraper's checkpoint load performs no check on
the file's columns: a table without the `title` column (its rows have no
titles) is loaded wholesale, so the starting collection is NOT empty, and no
warning is issued either. -/
theorem C6_counterexample :
    (loadH (HCheckpoint.table ["author"] [{ author := some "x" }])).1.buffer =
      [{ author := some "x" }] ∧
    (loadH (HCheckpoint.table ["author"] [{ author := some "x" }])).1.buffer ≠ [] ∧
    (loadH (HCheckpoint.table ["author"] [{ author := some "x" }])).2 = false := by
  exact ⟨rfl, by decide, rfl⟩

/-- C6, amended.  Checkpoint loading is total and never aborts a run, but
best-effort in a weaker sense than claimed: a missing file silently yields an
empty collection (no warning); an unreadable file yields an empty collection
with a warning; an API checkpoint without an `id` column yields an empty
collection silently; the scraper loads all rows regardless of the columns,
seeding its seen set from the rows' truthy titles. -/
theorem C6_load_amended :
    (loadA ACheckpoint.missing = (emptyA, false)) ∧
    (loadA ACheckpoint.unreadable = (emptyA, true)) ∧
    (∀ (cols : List String) (rows : List ARecord), "id" ∉ cols →
      loadA (ACheckpoint.table cols rows) = (emptyA, false)) ∧
    (loadH HCheckpoint.missing = (emptyH, false)) ∧
    (loadH HCheckpoint.unreadable = (emptyH, true)) ∧
    (∀ (cols : List String) (rows : List HRecord),
      loadH (HCheckpoint.table cols rows) =
        ({ emptyH with
            buffer := rows
            seen := (rows.filterMap fun r => truthyStr r.title).dedup }, false)) := by
  refine ⟨rfl, rfl, ?_, rfl, rfl, fun cols rows => rfl⟩
  intro cols rows h
  rw [loadA, if_neg h]

/-- Witness for C6's amended theorem at a concrete column list. -/
theorem C6_witness :
    ("id" ∉ ["author"]) ∧
    loadA (ACheckpoint.table ["author"] []) = (emptyA, false) :=
  ⟨by decide, C6_load_amended.2.2.1 ["author"] [] (by decide)⟩

/-- C7: confirmed.  Against consecutive HTTP 429 responses, the API fetcher's
Nth retry waits exactly `60 * 2^(N-1)` seconds (the wait before the Nth
re-attempt is the Nth element of the wait list, `60 * 2^n` at index
`n = N-1`), and after the configured maximum number of retries it stops and
returns failure (`None`) instead of raising; with the default maximum of 3
the waits are exactly 60, 120, 240 seconds. -/
theorem C7_backoff_schedule :
    ∀ (m : Nat) (key : Bool),
      (get_books_by_query (fun _ _ => ApiResponse.httpErr 429) key m).result = none ∧
      (get_books_by_query (fun _ _ => ApiResponse.httpErr 429) key m).waits =
        (List.range m).map (fun n => 60 * 2 ^ n) ∧
      (get_books_by_query (fun _ _ => ApiResponse.httpErr 429) key 3).waits =
        [60, 120, 240] := by
  intro m key
  obtain ⟨hr, hw⟩ := getBooksAux_429 key m (m + 1) 0 0 (by omega)
  refine ⟨hr, ?_, ?_⟩
  · rw [get_books_by_query, hw]
    have hm : m - 0 = m := by omega
    rw [hm]
    refine List.map_congr_left ?_
    intro a _
    rw [Nat.zero_add, Nat.mul_comm]
  · obtain ⟨_, hw3⟩ := getBooksAux_429 key 3 4 0 0 (by omega)
    rw [get_books_by_query, hw3]
    decide

/-- C8: confirmed.  Against any remote behaviour consisting of error
responses (HTTP error statuses including 4xx/5xx, transport errors such as
timeouts, and — for the API fetcher — 200s with malformed bodies), both
fetchers return the failure value `none` rather than raising past their
boundary: both are total functions and every all-error trace yields `none`.
(For `get_page` a 200 body always parses — BeautifulSoup is total — so the
malformed-body error class is empty for the HTML fetcher.) -/
theorem C8_errors_yield_failure :
    (∀ (remote : Nat → Bool → ApiResponse) (key : Bool) (m : Nat),
      (∀ n k, (remote n k).isErr = true) →
      (get_books_by_query remote key m).result = none) ∧
    (∀ (remote : Nat → HtmlResponse) (m : Nat),
      (∀ n, (remote n).isErr = true) →
      (get_page remote m).1 = none) :=
  ⟨fun remote key m h => getBooksAux_err remote key m h (m + 1) 0 0,
   fun remote m h => getPageAux_err remote m h (m + 1) 0 0⟩

/-- Witness for C8 at two concrete all-error remotes. -/
theorem C8_witness :
    (∀ n k, ((fun (_ : Nat) (_ : Bool) => ApiResponse.httpErr 500) n k).isErr = true) ∧
    (get_books_by_query (fun (_ : Nat) (_ : Bool) => ApiResponse.httpErr 500) true 3).result
        = none ∧
    (get_page (fun (_ : Nat) => HtmlResponse.transportErr) 3).1 = none :=
  ⟨fun _ _ => rfl,
   C8_errors_yield_failure.1 (fun _ _ => ApiResponse.httpErr 500) true 3 (fun _ _ => rfl),
   C8_errors_yield_failure.2 (fun _ => HtmlResponse.transportErr) 3 (fun _ => rfl)⟩

/-- C9: confirmed.  When a request made with an API key fails with HTTP 403,
the fetcher performs exactly one additional attempt with the key stripped
(the call list is `[(0, with key), (1, keyless)]` — two network calls, no
more), sleeps nothing, and does so for every retry budget `m` (including
`m = 0`, so the remediation does not consume the bounded retry budget); the
result is the keyless attempt's body on success and the failure value `none`
otherwise. -/
theorem C9_key_remediation :
    ∀ (remote : Nat → Bool → ApiResponse) (m : Nat),
      remote 0 true = ApiResponse.httpErr 403 →
      (get_books_by_query remote true m).calls = [(0, true), (1, false)] ∧
      (get_books_by_query remote true m).waits = [] ∧
      (get_books_by_query remote true m).result =
        (match remote 1 false with
         | ApiResponse.ok b => some b
         | _ => none) := by
  intro remote m h403
  rw [get_books_by_query, getBooksAux_403 remote m m 0 0 h403]
  cases hr : remote 1 false <;> simp [hr]

/-- Witness for C9 at a concrete remote whose keyless retry succeeds. -/
theorem C9_witness :
    ((fun (i : Nat) (_ : Bool) =>
        if i = 0 then ApiResponse.httpErr 403 else ApiResponse.ok {}) 0 true =
      ApiResponse.httpErr 403) ∧
    (get_books_by_query
      (fun (i : Nat) (_ : Bool) =>
        if i = 0 then ApiResponse.httpErr 403 else ApiResponse.ok {}) true 3).calls =
      [(0, true), (1, false)] :=
  ⟨rfl,
   (C9_key_remediation
     (fun (i : Nat) (_ : Bool) =>
       if i = 0 then ApiResponse.httpErr 403 else ApiResponse.ok {}) 3 rfl).1⟩

/-- C10: confirmed.  Year extraction is restricted to 1900-2099: for every
string, `extract_year` (clean step) returns a year exactly when the string
contains a standalone four-digit number starting with 19 or 20 (not adjacent
to word characters), any returned year lies in 1900..2099, the release-date
extraction of the scraper's detail parser is the very same function, a
missing (`NaN`) input yields `None`, and a pre-1900 date such as
"October 1850" yields `None`. -/
theorem C10_year_extraction :
    ∀ (s : String),
      ((extract_year (some s)).isSome = true ↔ StandaloneYear s.data) ∧
      (∀ y, extract_year (some s) = some y → 1900 ≤ y ∧ y ≤ 2099) ∧
      releaseDateYear s = extract_year (some s) ∧
      extract_year none = none ∧
      extract_year (some "October 1850") = none := by
  intro s
  refine ⟨scanYear_isSome_iff s.data none, ?_, rfl, rfl, by decide⟩
  intro y h
  exact scanYear_bounds s.data none y h

/-- Witness for C10 at a concrete date string. -/
theorem C10_witness :
    extract_year (some "June 1998") = some 1998 ∧ (1900 ≤ 1998 ∧ 1998 ≤ 2099) :=
  ⟨by decide, (C10_year_extraction "June 1998").2.1 1998 (by decide)⟩

end GP2
